import Mathlib

/-!
# PicoPak — verification of the package resolution / index mutation core

A shallow embedding of the PicoPak package manager's core logic:
the index mutator (`applyReleaseToIndex` and helpers), the semantic
version comparator (`compareVersions`), release and artifact selection
(`selectRelease`, `selectArtifact`), manifest validation
(`validateManifestV2`), checksum verification of downloads, the install
command's temp-directory lifecycle, and local-vs-remote input
classification (`isPackageNameReference` / `resolvePackageInput`).

Modelling conventions:
* JSON documents are the inductive `Json`; JavaScript objects are
  association lists of fields (first occurrence wins on lookup, which
  coincides with real JS objects whose keys are unique).
* JavaScript truthiness is `jsTruthy`; property access on a non-object
  yields `none` (missing).
* JS numbers are the inductive `JsNum`: an exact rational or one of the
  two infinities, with `none` standing for NaN; `jsStringToNumber`
  implements the `Number(string)` grammar (decimal with fraction and
  exponent, signed forms, `Infinity`, hex/octal/binary).  Stated
  deviations: finite values are exact rationals (no 53-bit rounding),
  with overflow to the infinities and underflow to zero at the double
  range boundaries; `-0` is collapsed to `0`.
* `String.prototype.localeCompare` (the host collator) is abstracted as
  a comparator parameter `collate`; theorems that need its order
  properties assume `IsCollator collate`.
* Fallible code returns `Except String`; `fail(msg)` / `throw` is
  `Except.error msg`.
-/

/-- The JS whitespace characters relevant to `String.prototype.trim`. -/
def jsIsSpace (c : Char) : Bool :=
  c = ' ' || c = '\t' || c = '\n' || c = '\r' || c = '\x0b' || c = '\x0c'

/-- `s.trim()`: strip whitespace from both ends. -/
def jsTrim (s : String) : String :=
  ⟨((s.data.dropWhile jsIsSpace).reverse.dropWhile jsIsSpace).reverse⟩

/-- ASCII lower-casing of one character (`String.prototype.toLowerCase`
restricted to the ASCII range this code compares). -/
def jsCharToLower (c : Char) : Char :=
  if 65 ≤ c.toNat && c.toNat ≤ 90 then Char.ofNat (c.toNat + 32) else c

/-- `s.toLowerCase()` on ASCII data. -/
def jsToLower (s : String) : String := ⟨s.data.map jsCharToLower⟩

/-- Accumulator loop behind `jsSplitOnChar`. -/
def jsSplitOnCharAux (sep : Char) : List Char → List Char → List String
  | [], acc => [⟨acc.reverse⟩]
  | c :: cs, acc =>
    if c = sep then ⟨acc.reverse⟩ :: jsSplitOnCharAux sep cs []
    else jsSplitOnCharAux sep cs (c :: acc)

/-- `s.split(sep)` for a one-character separator. -/
def jsSplitOnChar (sep : Char) (s : String) : List String := jsSplitOnCharAux sep s.data []

/-- `s.includes(c)` for a one-character needle. -/
def jsContainsChar (s : String) (c : Char) : Bool := s.data.any (· = c)

/-- `s.endsWith(suffixStr)`. -/
def jsEndsWith (s suffixStr : String) : Bool :=
  decide (suffixStr.data.length ≤ s.data.length) &&
    s.data.drop (s.data.length - suffixStr.data.length) == suffixStr.data

/-- A JSON value. Objects are field lists in document order. -/
inductive Json where
  | null : Json
  | bool : Bool → Json
  | num : Int → Json
  | str : String → Json
  | arr : List Json → Json
  | obj : List (String × Json) → Json
deriving Inhabited

namespace Json

/-- First-occurrence lookup in a field list. -/
def lookupField : List (String × Json) → String → Option Json
  | [], _ => none
  | (k, v) :: fs, key => if k = key then some v else lookupField fs key

/-- Replace the first occurrence of a key in a field list, else append
(the JS assignment `o[key] = v` on a plain object). -/
def replaceField : List (String × Json) → String → Json → List (String × Json)
  | [], key, v => [(key, v)]
  | (k, w) :: fs, key, v =>
    if k = key then (key, v) :: fs else (k, w) :: replaceField fs key v

/-- Remove every occurrence of a key from a field list. -/
def removeKey (fs : List (String × Json)) (key : String) : List (String × Json) :=
  fs.filter (fun kv => kv.1 ≠ key)

/-- Property access `j.key`: `none` models JS `undefined`
(access on a non-object value is modelled as missing). -/
def get : Json → String → Option Json
  | obj fs, key => lookupField fs key
  | _, _ => none

/-- Property assignment `j.key = v` (only meaningful on objects). -/
def setField : Json → String → Json → Json
  | obj fs, key, v => obj (replaceField fs key v)
  | j, _, _ => j

/-- Delete a property from an object. -/
def removeField : Json → String → Json
  | obj fs, key => obj (removeKey fs key)
  | j, _ => j

/-- JavaScript truthiness of a JSON value. -/
def jsTruthy : Json → Bool
  | null => false
  | bool b => b
  | num n => n != 0
  | str s => s ≠ ""
  | arr _ => true
  | obj _ => true

/-- Truthiness of a possibly-missing value (`undefined` is falsy). -/
def optTruthy : Option Json → Bool
  | none => false
  | some v => jsTruthy v

/-- `String(v)` for an array element inside `Array.prototype.toString`
(null prints as the empty string there). -/
def jsToString : Json → String
  | null => "null"
  | bool b => if b then "true" else "false"
  | num n => toString n
  | str s => s
  | arr xs => String.intercalate "," (xs.map fun x =>
      match x with
      | null => ""
      | bool b => if b then "true" else "false"
      | num n => toString n
      | str s => s
      | arr _ => ""
      | obj _ => "[object Object]")
  | obj _ => "[object Object]"

end Json

mutual

/-- `JSON.parse(JSON.stringify(value))`: a structural deep copy.
On the `Json` model this rebuilds the value node by node. -/
def structuredCloneJson : Json → Json
  | Json.null => Json.null
  | Json.bool b => Json.bool b
  | Json.num n => Json.num n
  | Json.str s => Json.str s
  | Json.arr xs => Json.arr (cloneJsonList xs)
  | Json.obj fs => Json.obj (cloneJsonFields fs)

/-- Deep copy of a JSON array's elements. -/
def cloneJsonList : List Json → List Json
  | [] => []
  | x :: xs => structuredCloneJson x :: cloneJsonList xs

/-- Deep copy of a JSON object's fields. -/
def cloneJsonFields : List (String × Json) → List (String × Json)
  | [] => []
  | (k, v) :: fs => (k, structuredCloneJson v) :: cloneJsonFields fs

end

/-- The release payload built by `buildReleasePayload` and applied to the
index (`IndexReleasePayload` in the source). -/
structure IndexReleasePayload where
  version : String
  prerelease : Bool
  description : String
  license : String
  package_format : String
  distribution_tier : String
  /-- platform → (url, sha256) -/
  artifacts : List (String × String × String)
deriving Repr, DecidableEq, Inhabited

/-- The JSON object a payload serialises to inside the index document. -/
def IndexReleasePayload.toJson (p : IndexReleasePayload) : Json :=
  Json.obj
    [ ("version", Json.str p.version)
    , ("prerelease", Json.bool p.prerelease)
    , ("description", Json.str p.description)
    , ("license", Json.str p.license)
    , ("package_format", Json.str p.package_format)
    , ("distribution_tier", Json.str p.distribution_tier)
    , ("artifacts", Json.obj (p.artifacts.map fun a =>
        (a.1, Json.obj [("url", Json.str a.2.1), ("sha256", Json.str a.2.2)]))) ]

/-- The conflict message `Immutable version check failed: name@version already exists.` -/
def immutableVersionMsg (packageName version : String) : String :=
  "Immutable version check failed: " ++ packageName ++ "@" ++ version ++ " already exists."

/-- `String(release.version || '').trim().toLowerCase() === version.toLowerCase()`:
the duplicate-version test used on releases-as-array entries. -/
def releaseVersionMatches (version : String) (entry : Json) : Bool :=
  let rv : Json :=
    match entry.get "version" with
    | some v => if v.jsTruthy then v else Json.str ""
    | none => Json.str ""
  jsToLower (jsTrim (Json.jsToString rv)) = jsToLower version

/-- The case-insensitive package-node name test used by `applyToArrayPackages`
(`typeof node?.name === 'string' && node.name.toLowerCase() === packageName.toLowerCase()`). -/
def isPkgNodeNamed (packageName : String) (entry : Json) : Bool :=
  match entry.get "name" with
  | some (Json.str s) => jsToLower s = jsToLower packageName
  | _ => false

/-- `applyToArrayPackages` (source part_002, lines 287–310): find the first
package node with a case-insensitively matching name and push the payload
onto its `releases` array after the immutable-version check; if no node
matches, append a fresh `\x7bname, releases: [payload]\x7d` node. -/
def applyToArrayPackages (packages : List Json) (packageName version : String)
    (payloadJson : Json) : Except String (List Json) :=
  match packages with
  | [] =>
    -- packageNode = { name: packageName, releases: [] } is pushed, then the
    -- payload is pushed onto its (empty, conflict-free) releases array.
    Except.ok [Json.obj [("name", Json.str packageName), ("releases", Json.arr [payloadJson])]]
  | node :: rest =>
    if isPkgNodeNamed packageName node then
      match node.get "releases" with
      | some (Json.arr releases) =>
        if releases.any (releaseVersionMatches version) then
          Except.error (immutableVersionMsg packageName version)
        else
          Except.ok (node.setField "releases" (Json.arr (releases ++ [payloadJson])) :: rest)
      | _ =>
        Except.error ("Unsupported releases format for package \"" ++ packageName
          ++ "\" (expected array).")
    else
      (applyToArrayPackages rest packageName version payloadJson).map (node :: ·)

/-- The backfill block opening `applyToPackageReleases` (source part_002,
lines 313–321): set `name`, `description` and `releases` when falsy. -/
def backfillPackageNode (packageNode : Json) (packageName description : String) : Json :=
  let n1 := if Json.optTruthy (packageNode.get "name") then packageNode
            else packageNode.setField "name" (Json.str packageName)
  let n2 := if Json.optTruthy (n1.get "description") then n1
            else n1.setField "description" (Json.str description)
  if Json.optTruthy (n2.get "releases") then n2
  else n2.setField "releases" (Json.obj [])

/-- `applyToPackageReleases` (source part_002, lines 312–345): backfill
`name`/`description`/`releases` when falsy, then add the payload to the
node's releases (array → duplicate check + push; map → truthy-key check +
insert under the version key). -/
def applyToPackageReleases (packageNode : Json) (packageName version : String)
    (payload : IndexReleasePayload) : Except String Json :=
  let n3 := backfillPackageNode packageNode packageName payload.description
  match n3.get "releases" with
  | some (Json.arr releases) =>
    if releases.any (releaseVersionMatches version) then
      Except.error (immutableVersionMsg packageName version)
    else
      Except.ok (n3.setField "releases" (Json.arr (releases ++ [payload.toJson])))
  | some (Json.obj releaseFields) =>
    if Json.optTruthy (Json.lookupField releaseFields version) then
      Except.error (immutableVersionMsg packageName version)
    else
      Except.ok (n3.setField "releases"
        (Json.obj (Json.replaceField releaseFields version payload.toJson)))
  | _ =>
    Except.error ("Unsupported releases format for package \"" ++ packageName ++ "\".")

/-- `applyReleaseToIndex` (source part_002, lines 257–285): deep-copy the
index document, dispatch on the shape of its `packages` member (array of
nodes vs name-keyed map, created empty when falsy/missing), and add the
release through the shape's helper. -/
def applyReleaseToIndex (indexData : Json) (packageName version : String)
    (payload : IndexReleasePayload) : Except String Json :=
  let root := structuredCloneJson indexData
  match root with
  | Json.obj rootFields =>
    match Json.lookupField rootFields "packages" with
    | some (Json.arr packagesArr) =>
      (applyToArrayPackages packagesArr packageName version payload.toJson).map
        (fun updated => (Json.obj rootFields).setField "packages" (Json.arr updated))
    | packagesNode =>
      let root1 := if Json.optTruthy packagesNode then Json.obj rootFields
                   else (Json.obj rootFields).setField "packages" (Json.obj [])
      match root1.get "packages" with
      | some (Json.obj packagesFields) =>
        let packages1 :=
          if Json.optTruthy (Json.lookupField packagesFields packageName) then
            Json.obj packagesFields
          else
            (Json.obj packagesFields).setField packageName
              (Json.obj [("name", Json.str packageName), ("releases", Json.obj [])])
        match packages1.get packageName with
        | some packageNode =>
          (applyToPackageReleases packageNode packageName version payload).map
            (fun newNode => root1.setField "packages" (packages1.setField packageName newNode))
        | none => Except.error "Unsupported index \"packages\" format."
      | _ => Except.error "Unsupported index \"packages\" format."
  | _ => Except.error "Index root must be a JSON object."

/-! ## Basic lemmas about the JSON model -/

theorem lookupField_replaceField_self (fs : List (String × Json)) (k : String) (v : Json) :
    Json.lookupField (Json.replaceField fs k v) k = some v := by
  induction fs with
  | nil => simp [Json.replaceField, Json.lookupField]
  | cons kv fs ih =>
    obtain ⟨k', w⟩ := kv
    by_cases h : k' = k
    · subst h; simp [Json.replaceField, Json.lookupField]
    · simp [Json.replaceField, Json.lookupField, h, ih]

theorem lookupField_replaceField_ne (fs : List (String × Json)) (k k' : String) (v : Json)
    (h : k' ≠ k) : Json.lookupField (Json.replaceField fs k v) k' = Json.lookupField fs k' := by
  induction fs with
  | nil => simp [Json.replaceField, Json.lookupField, Ne.symm h]
  | cons kv fs ih =>
    obtain ⟨k'', w⟩ := kv
    by_cases hk : k'' = k
    · subst hk
      simp [Json.replaceField, Json.lookupField, h, Ne.symm h]
    · simp [Json.replaceField, Json.lookupField, hk, ih]

theorem get_setField_self (j : Json) (k : String) (v : Json) (fs : List (String × Json))
    (hj : j = Json.obj fs) : (j.setField k v).get k = some v := by
  subst hj
  simp [Json.setField, Json.get, lookupField_replaceField_self]

theorem get_setField_ne (j : Json) (k k' : String) (v : Json) (h : k' ≠ k) :
    (j.setField k v).get k' = j.get k' := by
  cases j <;> simp [Json.setField, Json.get, lookupField_replaceField_ne _ _ _ _ h]

theorem get_some_obj {j : Json} {k : String} {v : Json} (h : j.get k = some v) :
    ∃ fs, j = Json.obj fs := by
  cases j <;> simp [Json.get] at h ⊢

mutual

theorem structuredCloneJson_eq : ∀ (j : Json), structuredCloneJson j = j
  | Json.null => rfl
  | Json.bool _ => rfl
  | Json.num _ => rfl
  | Json.str _ => rfl
  | Json.arr xs => by rw [structuredCloneJson, cloneJsonList_eq]
  | Json.obj fs => by rw [structuredCloneJson, cloneJsonFields_eq]

theorem cloneJsonList_eq : ∀ (l : List Json), cloneJsonList l = l
  | [] => rfl
  | x :: xs => by rw [cloneJsonList, structuredCloneJson_eq, cloneJsonList_eq]

theorem cloneJsonFields_eq : ∀ (l : List (String × Json)), cloneJsonFields l = l
  | [] => rfl
  | (k, v) :: fs => by rw [cloneJsonFields, structuredCloneJson_eq, cloneJsonFields_eq]

end

/-! ## The immutable-version guarantee (claim C1) -/

theorem releaseVersionMatches_toJson (version : String) (p : IndexReleasePayload)
    (hv : p.version = version) (ht : jsTrim version = version) :
    releaseVersionMatches version p.toJson = true := by
  have hget : p.toJson.get "version" = some (Json.str p.version) := by
    simp [IndexReleasePayload.toJson, Json.get, Json.lookupField]
  simp only [releaseVersionMatches, hget, hv]
  by_cases h0 : version = ""
  · subst h0; simp [Json.jsTruthy, Json.jsToString, ht]
  · simp [Json.jsTruthy, h0, Json.jsToString, ht]

theorem isPkgNodeNamed_setField_releases (n : String) (j v : Json) :
    isPkgNodeNamed n (j.setField "releases" v) = isPkgNodeNamed n j := by
  unfold isPkgNodeNamed
  rw [get_setField_ne _ _ _ _ (by decide : ("name" : String) ≠ "releases")]

/-- After a successful array-shape apply, re-applying the same version is a
conflict (provided the payload's stored version matches the requested one). -/
theorem applyToArrayPackages_conflict_second (version : String) (payloadJson : Json)
    (hmatch : releaseVersionMatches version payloadJson = true) :
    ∀ (packages : List Json) (packageName : String) (pkgs' : List Json),
      applyToArrayPackages packages packageName version payloadJson = Except.ok pkgs' →
      ∀ (payload2 : Json),
        applyToArrayPackages pkgs' packageName version payload2 =
          Except.error (immutableVersionMsg packageName version) := by
  intro packages
  induction packages with
  | nil =>
    intro packageName pkgs' hok payload2
    simp only [applyToArrayPackages, Except.ok.injEq] at hok
    subst hok
    simp [applyToArrayPackages, isPkgNodeNamed, Json.get, Json.lookupField, hmatch]
  | cons node rest ih =>
    intro packageName pkgs' hok payload2
    cases hname : isPkgNodeNamed packageName node with
    | true =>
      simp only [applyToArrayPackages, hname, if_true] at hok
      cases hrel : node.get "releases" with
      | none => rw [hrel] at hok; exact absurd hok (by simp)
      | some relv =>
        rw [hrel] at hok
        cases relv with
        | arr releases =>
          by_cases hany : releases.any (releaseVersionMatches version) = true
          · simp [hany] at hok
          · simp only [hany, Bool.false_eq_true, if_neg, if_false,
              Except.ok.injEq, reduceCtorEq] at hok
            obtain ⟨fs, hfs⟩ := get_some_obj hrel
            subst hok
            have hname' : isPkgNodeNamed packageName
                (node.setField "releases" (Json.arr (releases ++ [payloadJson]))) = true := by
              rw [isPkgNodeNamed_setField_releases, hname]
            have hget' : (node.setField "releases"
                (Json.arr (releases ++ [payloadJson]))).get "releases" =
                some (Json.arr (releases ++ [payloadJson])) :=
              get_setField_self _ _ _ _ hfs
            simp [applyToArrayPackages, hname', hget', List.any_append, hmatch]
        | null => exact absurd hok (by simp)
        | bool b => exact absurd hok (by simp)
        | num n => exact absurd hok (by simp)
        | str s => exact absurd hok (by simp)
        | obj fs => exact absurd hok (by simp)
    | false =>
      simp only [applyToArrayPackages, hname, Bool.false_eq_true, if_false] at hok
      cases hrec : applyToArrayPackages rest packageName version payloadJson with
      | error e => rw [hrec] at hok; exact absurd hok (by simp [Except.map])
      | ok rest' =>
        rw [hrec] at hok
        simp only [Except.map, Except.ok.injEq] at hok
        subst hok
        simp only [applyToArrayPackages, hname, Bool.false_eq_true, if_false,
          ih packageName rest' hrec payload2, Except.map]

theorem backfillPackageNode_get_releases (node : Json) (pn ds : String) (X : Json)
    (hX : node.get "releases" = some X) (hT : X.jsTruthy = true) :
    (backfillPackageNode node pn ds).get "releases" = some X := by
  simp only [backfillPackageNode]
  have h1 : (if Json.optTruthy (node.get "name") = true then node
      else node.setField "name" (Json.str pn)).get "releases" = some X := by
    split
    · exact hX
    · rw [get_setField_ne _ _ _ _ (by decide : ("releases" : String) ≠ "name")]; exact hX
  generalize hA : (if Json.optTruthy (node.get "name") = true then node
      else node.setField "name" (Json.str pn)) = n1 at h1 ⊢
  have h2 : (if Json.optTruthy (n1.get "description") = true then n1
      else n1.setField "description" (Json.str ds)).get "releases" = some X := by
    split
    · exact h1
    · rw [get_setField_ne _ _ _ _ (by decide : ("releases" : String) ≠ "description")]
      exact h1
  generalize hB : (if Json.optTruthy (n1.get "description") = true then n1
      else n1.setField "description" (Json.str ds)) = n2 at h2 ⊢
  simp [Json.optTruthy, h2, hT]

/-- A package node whose releases array already holds a matching version is
rejected with the conflict error. -/
theorem applyToPackageReleases_conflict_arr (node : Json) (rels : List Json)
    (packageName version : String) (pl : IndexReleasePayload)
    (hX : node.get "releases" = some (Json.arr rels))
    (hany : rels.any (releaseVersionMatches version) = true) :
    applyToPackageReleases node packageName version pl =
      Except.error (immutableVersionMsg packageName version) := by
  have h := backfillPackageNode_get_releases node packageName pl.description
    (Json.arr rels) hX (by simp [Json.jsTruthy])
  simp only [applyToPackageReleases, h, hany, if_true]

/-- A package node whose releases map already holds a truthy entry under the
version key is rejected with the conflict error. -/
theorem applyToPackageReleases_conflict_obj (node : Json) (rfs : List (String × Json))
    (packageName version : String) (pl : IndexReleasePayload)
    (hX : node.get "releases" = some (Json.obj rfs))
    (hlk : Json.optTruthy (Json.lookupField rfs version) = true) :
    applyToPackageReleases node packageName version pl =
      Except.error (immutableVersionMsg packageName version) := by
  have h := backfillPackageNode_get_releases node packageName pl.description
    (Json.obj rfs) hX (by simp [Json.jsTruthy])
  simp only [applyToPackageReleases, h, hlk, if_true]

/-- After a successful map-shape apply, the updated node is an object and
re-applying the same version is rejected with the conflict error. -/
theorem applyToPackageReleases_conflict_second (packageNode : Json)
    (packageName version : String) (payload : IndexReleasePayload) (node' : Json)
    (hv : payload.version = version) (ht : jsTrim version = version)
    (hok : applyToPackageReleases packageNode packageName version payload = Except.ok node') :
    (∃ nf, node' = Json.obj nf) ∧
    ∀ (payload2 : IndexReleasePayload),
      applyToPackageReleases node' packageName version payload2 =
        Except.error (immutableVersionMsg packageName version) := by
  have hmatch := releaseVersionMatches_toJson version payload hv ht
  simp only [applyToPackageReleases] at hok
  generalize hN : backfillPackageNode packageNode packageName payload.description = N3 at hok
  cases hrel : N3.get "releases" with
  | none => rw [hrel] at hok; exact absurd hok (by simp)
  | some X =>
    rw [hrel] at hok
    obtain ⟨nf, hnf⟩ := get_some_obj hrel
    cases X with
    | null => exact absurd hok (by simp)
    | bool b => exact absurd hok (by simp)
    | num n => exact absurd hok (by simp)
    | str s => exact absurd hok (by simp)
    | arr rels =>
      try simp only [] at hok
      by_cases hany : rels.any (releaseVersionMatches version) = true
      · rw [if_pos hany] at hok; exact absurd hok (by simp)
      · rw [if_neg hany] at hok
        simp only [Except.ok.injEq] at hok
        subst hok
        constructor
        · subst hnf; exact ⟨_, rfl⟩
        · intro payload2
          apply applyToPackageReleases_conflict_arr _ (rels ++ [payload.toJson])
          · exact get_setField_self _ _ _ _ hnf
          · simp [List.any_append, hmatch]
    | obj rfs =>
      try simp only [] at hok
      by_cases hlk : Json.optTruthy (Json.lookupField rfs version) = true
      · rw [if_pos hlk] at hok; exact absurd hok (by simp)
      · rw [if_neg hlk] at hok
        simp only [Except.ok.injEq] at hok
        subst hok
        constructor
        · subst hnf; exact ⟨_, rfl⟩
        · intro payload2
          apply applyToPackageReleases_conflict_obj _
            (Json.replaceField rfs version payload.toJson)
          · exact get_setField_self _ _ _ _ hnf
          · rw [lookupField_replaceField_self]
            simp [Json.optTruthy, IndexReleasePayload.toJson, Json.jsTruthy]

/-- A map-shape document whose target package node rejects the version makes
the whole apply reject it. -/
theorem applyReleaseToIndex_second_map (doc₁ : Json) (packageName version : String)
    (payload2 : IndexReleasePayload) (rf₁ : List (String × Json))
    (pfs' : List (String × Json)) (node' : Json) (nf' : List (String × Json))
    (hdoc : doc₁ = Json.obj rf₁)
    (hpk : Json.lookupField rf₁ "packages" = some (Json.obj pfs'))
    (hnode : Json.lookupField pfs' packageName = some node')
    (hobj : node' = Json.obj nf')
    (herr : applyToPackageReleases node' packageName version payload2 =
      Except.error (immutableVersionMsg packageName version)) :
    applyReleaseToIndex doc₁ packageName version payload2 =
      Except.error (immutableVersionMsg packageName version) := by
  subst hdoc
  simp only [applyReleaseToIndex, structuredCloneJson_eq, hpk, Json.optTruthy, Json.jsTruthy,
    if_true, Json.get, hnode, hobj]
  rw [← hobj, herr]
  rfl

theorem optTruthy_some_obj (fs : List (String × Json)) :
    Json.optTruthy (some (Json.obj fs)) = true := rfl

theorem optTruthy_some_arr (xs : List Json) :
    Json.optTruthy (some (Json.arr xs)) = true := rfl

theorem optTruthy_some_null : Json.optTruthy (some Json.null) = false := rfl

theorem optTruthy_some_bool (b : Bool) : Json.optTruthy (some (Json.bool b)) = b := rfl

theorem optTruthy_some_num (n : Int) :
    Json.optTruthy (some (Json.num n)) = (n != 0) := rfl

theorem optTruthy_some_str (s : String) :
    Json.optTruthy (some (Json.str s)) = decide (s ≠ "") := rfl

theorem optTruthy_none_eq : Json.optTruthy none = false := rfl

/-- Common tail of the map-shape apply: once the update is known to be a
successful map-shape insertion, the second apply is a conflict. -/
theorem applyReleaseToIndex_map_tail (rfr pf1 : List (String × Json)) (NODE doc₁ : Json)
    (packageName version : String) (payload payload2 : IndexReleasePayload)
    (hv : payload.version = version) (ht : jsTrim version = version)
    (hok : Except.map (fun newNode => Json.obj (Json.replaceField rfr "packages"
        (Json.obj (Json.replaceField pf1 packageName newNode))))
        (applyToPackageReleases NODE packageName version payload) = Except.ok doc₁) :
    applyReleaseToIndex doc₁ packageName version payload2 =
      Except.error (immutableVersionMsg packageName version) := by
  cases happ : applyToPackageReleases NODE packageName version payload with
  | error e => rw [happ] at hok; exact absurd hok (by simp [Except.map])
  | ok node' =>
    obtain ⟨⟨nf', hnf'⟩, herr⟩ := applyToPackageReleases_conflict_second
      NODE packageName version payload node' hv ht happ
    rw [happ] at hok
    simp only [Except.map, Except.ok.injEq] at hok
    subst hok
    exact applyReleaseToIndex_second_map _ packageName version payload2
      (Json.replaceField rfr "packages" (Json.obj (Json.replaceField pf1 packageName node')))
      (Json.replaceField pf1 packageName node') node' nf'
      rfl (lookupField_replaceField_self _ _ _)
      (lookupField_replaceField_self _ _ _) hnf' (herr payload2)

/-- Claim C1, amended: for a version string without surrounding whitespace
(`version.trim = version`, true of every semantic version) and a payload
recording that version (as `buildReleasePayload` always does), applying the
same `(packageName, version)` pair a second time to the updated document
fails with the immutable-version conflict error, on every supported index
shape. -/
theorem applyReleaseToIndex_twice_conflict (doc : Json) (packageName version : String)
    (payload : IndexReleasePayload) (doc₁ : Json) (payload2 : IndexReleasePayload)
    (ht : jsTrim version = version) (hv : payload.version = version)
    (hok : applyReleaseToIndex doc packageName version payload = Except.ok doc₁) :
    applyReleaseToIndex doc₁ packageName version payload2 =
      Except.error (immutableVersionMsg packageName version) := by
  have hmatch := releaseVersionMatches_toJson version payload hv ht
  simp only [applyReleaseToIndex, structuredCloneJson_eq] at hok
  cases doc with
  | null => exact absurd hok (by simp)
  | bool b => exact absurd hok (by simp)
  | num n => exact absurd hok (by simp)
  | str s => exact absurd hok (by simp)
  | arr xs => exact absurd hok (by simp)
  | obj rf =>
  try simp only [] at hok
  cases hpk : Json.lookupField rf "packages" with
  | some v =>
    rw [hpk] at hok
    cases v with
    | arr pkgs =>
      try simp only [] at hok
      cases happ : applyToArrayPackages pkgs packageName version payload.toJson with
      | error e => rw [happ] at hok; exact absurd hok (by simp [Except.map])
      | ok pkgs' =>
        rw [happ] at hok
        simp only [Except.map, Except.ok.injEq] at hok
        subst hok
        simp only [applyReleaseToIndex, structuredCloneJson_eq, Json.setField,
          lookupField_replaceField_self]
        rw [applyToArrayPackages_conflict_second version payload.toJson hmatch
          pkgs packageName pkgs' happ payload2.toJson]
        rfl
    | obj pfs =>
      try simp only [] at hok
      simp only [optTruthy_some_obj, if_true, Json.get] at hok
      rw [hpk] at hok
      try simp only [] at hok
      by_cases htr : Json.optTruthy (Json.lookupField pfs packageName) = true
      · rw [if_pos htr] at hok
        cases hnd : Json.lookupField pfs packageName with
        | none => rw [hnd, optTruthy_none_eq] at htr; exact absurd htr (by simp)
        | some nodev =>
          simp only [Json.get, hnd, Json.setField] at hok
          try simp only [] at hok
          exact applyReleaseToIndex_map_tail rf pfs nodev doc₁
            packageName version payload payload2 hv ht hok
      · rw [if_neg htr] at hok
        simp only [Json.setField, Json.get, lookupField_replaceField_self] at hok
        try simp only [] at hok
        exact applyReleaseToIndex_map_tail rf
          (Json.replaceField pfs packageName
            (Json.obj [("name", Json.str packageName), ("releases", Json.obj [])]))
          _ doc₁ packageName version payload payload2 hv ht hok
    | null =>
      try simp only [] at hok
      simp only [optTruthy_some_null, Bool.false_eq_true, if_false, Json.setField, Json.get,
        lookupField_replaceField_self, Json.lookupField, optTruthy_none_eq] at hok
      try simp only [] at hok
      exact applyReleaseToIndex_map_tail (Json.replaceField rf "packages" (Json.obj []))
        _ _ doc₁ packageName version payload payload2 hv ht hok
    | bool b =>
      cases b with
      | false =>
        try simp only [] at hok
        simp only [optTruthy_some_bool, Bool.false_eq_true, if_false, Json.setField, Json.get,
          lookupField_replaceField_self, Json.lookupField, optTruthy_none_eq] at hok
        try simp only [] at hok
        exact applyReleaseToIndex_map_tail (Json.replaceField rf "packages" (Json.obj []))
          _ _ doc₁ packageName version payload payload2 hv ht hok
      | true =>
        try simp only [] at hok
        simp only [optTruthy_some_bool, if_true, Json.get] at hok
        rw [hpk] at hok
        exact absurd hok (by simp)
    | num n =>
      by_cases hn : n = 0
      · subst hn
        try simp only [] at hok
        simp only [optTruthy_some_num, bne_self_eq_false, Bool.false_eq_true, if_false,
          Json.setField, Json.get, lookupField_replaceField_self, Json.lookupField, optTruthy_none_eq] at hok
        try simp only [] at hok
        exact applyReleaseToIndex_map_tail (Json.replaceField rf "packages" (Json.obj []))
          _ _ doc₁ packageName version payload payload2 hv ht hok
      · try simp only [] at hok
        have : (n != 0) = true := by simpa using hn
        simp only [optTruthy_some_num, this, if_true, Json.get] at hok
        rw [hpk] at hok
        exact absurd hok (by simp)
    | str s =>
      by_cases hs : s = ""
      · subst hs
        try simp only [] at hok
        have h0 : Json.optTruthy (some (Json.str "")) = false := rfl
        simp only [h0, Bool.false_eq_true, if_false,
          Json.setField, Json.get, lookupField_replaceField_self, Json.lookupField, optTruthy_none_eq] at hok
        try simp only [] at hok
        exact applyReleaseToIndex_map_tail (Json.replaceField rf "packages" (Json.obj []))
          _ _ doc₁ packageName version payload payload2 hv ht hok
      · try simp only [] at hok
        have : decide (s ≠ "") = true := by simpa using hs
        simp only [optTruthy_some_str, this, if_true, Json.get] at hok
        rw [hpk] at hok
        exact absurd hok (by simp)
  | none =>
    rw [hpk] at hok
    try simp only [] at hok
    simp only [optTruthy_none_eq, Bool.false_eq_true, if_false, Json.setField, Json.get,
      lookupField_replaceField_self, Json.lookupField, optTruthy_none_eq] at hok
    try simp only [] at hok
    exact applyReleaseToIndex_map_tail (Json.replaceField rf "packages" (Json.obj []))
      _ _ doc₁ packageName version payload payload2 hv ht hok

/-- A release payload for the version string " 1.0.0" (note the leading
space), as `buildReleasePayload` would produce for a metadata file whose
`package.version` is " 1.0.0". -/
def c1Payload : IndexReleasePayload :=
  { version := " 1.0.0", prerelease := false, description := "demo", license := "MIT",
    package_format := "2.0", distribution_tier := "source",
    artifacts := [("rp2040", "https://example.com/a.picopak", "00")] }

/-- The array-shape index after publishing `p@\" 1.0.0\"` once. -/
def c1Doc1 : Json :=
  Json.obj [("packages", Json.arr
    [Json.obj [("name", Json.str "p"), ("releases", Json.arr [c1Payload.toJson])]])]

/-- The array-shape index after publishing `p@\" 1.0.0\"` twice. -/
def c1Doc2 : Json :=
  Json.obj [("packages", Json.arr
    [Json.obj [("name", Json.str "p"),
      ("releases", Json.arr [c1Payload.toJson, c1Payload.toJson])]])]

/-- Claim C1 as stated is false: for the version string " 1.0.0" (surrounding
whitespace, which `validatePackMetadata` accepts), applying the very same
`(package, version)` pair twice to an array-shape index succeeds both times —
the duplicate check trims and lowercases the stored version but only
lowercases the requested one, so the second apply does not conflict and a
duplicate release entry is appended. -/
theorem c1_counterexample :
    applyReleaseToIndex (Json.obj [("packages", Json.arr [])]) "p" " 1.0.0" c1Payload
      = Except.ok c1Doc1 ∧
    applyReleaseToIndex c1Doc1 "p" " 1.0.0" c1Payload = Except.ok c1Doc2 :=
  ⟨rfl, rfl⟩

/-- A release payload for the whitespace-free version "1.0.0". -/
def w1Payload : IndexReleasePayload :=
  { version := "1.0.0", prerelease := false, description := "demo", license := "MIT",
    package_format := "2.0", distribution_tier := "source",
    artifacts := [("rp2040", "https://example.com/a.picopak", "00")] }

/-- The array-shape index after publishing `p@1.0.0` once. -/
def w1Doc1 : Json :=
  Json.obj [("packages", Json.arr
    [Json.obj [("name", Json.str "p"), ("releases", Json.arr [w1Payload.toJson])]])]

/-- Witness for `applyReleaseToIndex_twice_conflict` at a concrete input. -/
theorem applyReleaseToIndex_twice_conflict_witness :
    applyReleaseToIndex w1Doc1 "p" "1.0.0" w1Payload =
      Except.error (immutableVersionMsg "p" "1.0.0") :=
  applyReleaseToIndex_twice_conflict (Json.obj [("packages", Json.arr [])]) "p" "1.0.0"
    w1Payload w1Doc1 w1Payload rfl rfl rfl

/-! ## Additivity of the index mutator (claim C2) -/

/-- The release entries recorded on one package node: the elements of a
releases array, or the values of a releases map. -/
def nodeReleases (node : Json) : List Json :=
  match node.get "releases" with
  | some (Json.arr rs) => rs
  | some (Json.obj fs) => fs.map (fun kv => kv.2)
  | _ => []

/-- All release entries a document records for a package: in the array shape
the entries of every case-insensitively matching node (the mutator only ever
touches the first), in the map shape the node under the exact key. -/
def docReleaseEntries (doc : Json) (packageName : String) : List Json :=
  match doc.get "packages" with
  | some (Json.arr pkgs) =>
    ((pkgs.filter (isPkgNodeNamed packageName)).map nodeReleases).flatten
  | some (Json.obj pfs) =>
    match Json.lookupField pfs packageName with
    | some node => nodeReleases node
    | none => []
  | _ => []

/-- Whether the map-shape releases map of the target package already carries
(any value under) the applied version key. -/
def mapReleasesHasKey (doc : Json) (packageName version : String) : Bool :=
  match doc.get "packages" with
  | some (Json.obj pfs) =>
    match Json.lookupField pfs packageName with
    | some node =>
      match node.get "releases" with
      | some (Json.obj rfs) => (Json.lookupField rfs version).isSome
      | _ => false
    | none => false
  | _ => false

theorem replaceField_append_of_lookup_none (fs : List (String × Json)) (k : String) (v : Json)
    (h : Json.lookupField fs k = none) : Json.replaceField fs k v = fs ++ [(k, v)] := by
  induction fs with
  | nil => simp [Json.replaceField]
  | cons kv fs ih =>
    obtain ⟨k', w⟩ := kv
    simp only [Json.lookupField] at h
    by_cases hk : k' = k
    · simp [hk] at h
    · simp only [hk, if_false] at h
      simp [Json.replaceField, hk, ih h]

/-- Structural description of a successful array-shape apply: either no node
matched and a fresh node was appended, or the first matching node had its
releases array extended by exactly the payload. -/
theorem applyToArrayPackages_ok_decomp (packages : List Json) (pn ver : String) (pj : Json)
    (pkgs' : List Json)
    (hok : applyToArrayPackages packages pn ver pj = Except.ok pkgs') :
    ((∀ x ∈ packages, isPkgNodeNamed pn x = false) ∧
      pkgs' = packages ++ [Json.obj [("name", Json.str pn), ("releases", Json.arr [pj])]]) ∨
    (∃ A node B rels, packages = A ++ node :: B ∧
      (∀ x ∈ A, isPkgNodeNamed pn x = false) ∧
      isPkgNodeNamed pn node = true ∧ node.get "releases" = some (Json.arr rels) ∧
      rels.any (releaseVersionMatches ver) = false ∧
      pkgs' = A ++ node.setField "releases" (Json.arr (rels ++ [pj])) :: B) := by
  induction packages generalizing pkgs' with
  | nil =>
    left
    simp only [applyToArrayPackages, Except.ok.injEq] at hok
    exact ⟨by simp, by simp [hok.symm]⟩
  | cons node rest ih =>
    cases hname : isPkgNodeNamed pn node with
    | true =>
      simp only [applyToArrayPackages, hname, if_true] at hok
      cases hrel : node.get "releases" with
      | none => rw [hrel] at hok; exact absurd hok (by simp)
      | some relv =>
        rw [hrel] at hok
        cases relv with
        | arr rels =>
          try simp only [] at hok
          by_cases hany : rels.any (releaseVersionMatches ver) = true
          · rw [if_pos hany] at hok; exact absurd hok (by simp)
          · rw [if_neg hany] at hok
            simp only [Except.ok.injEq] at hok
            right
            exact ⟨[], node, rest, rels, by simp, by simp, hname, hrel,
              Bool.not_eq_true _ ▸ hany, by simp [hok.symm]⟩
        | null => exact absurd hok (by simp)
        | bool b => exact absurd hok (by simp)
        | num n => exact absurd hok (by simp)
        | str s => exact absurd hok (by simp)
        | obj fs => exact absurd hok (by simp)
    | false =>
      simp only [applyToArrayPackages, hname, Bool.false_eq_true, if_false] at hok
      cases hrec : applyToArrayPackages rest pn ver pj with
      | error e => rw [hrec] at hok; exact absurd hok (by simp [Except.map])
      | ok rest' =>
        rw [hrec] at hok
        simp only [Except.map, Except.ok.injEq] at hok
        subst hok
        rcases ih rest' hrec with ⟨hall, hres⟩ | ⟨A, nodet, B, rels, hsplit, hA, hm, hr, ha, hres⟩
        · left
          constructor
          · intro x hx
            rcases List.mem_cons.mp hx with h | h
            · subst h; exact hname
            · exact hall x h
          · simp [hres]
        · right
          exact ⟨node :: A, nodet, B, rels, by simp [hsplit], by
            intro x hx
            rcases List.mem_cons.mp hx with h | h
            · subst h; exact hname
            · exact hA x h, hm, hr, ha, by simp [hres]⟩

theorem replaceField_replaceField (fs : List (String × Json)) (k : String) (v w : Json) :
    Json.replaceField (Json.replaceField fs k v) k w = Json.replaceField fs k w := by
  induction fs with
  | nil => simp [Json.replaceField]
  | cons kv fs ih =>
    obtain ⟨k', u⟩ := kv
    by_cases hk : k' = k
    · subst hk; simp [Json.replaceField]
    · simp [Json.replaceField, hk, ih]

theorem nodeReleases_of_arr (node : Json) (rs : List Json)
    (h : node.get "releases" = some (Json.arr rs)) : nodeReleases node = rs := by
  simp [nodeReleases, h]

theorem nodeReleases_of_obj (node : Json) (fs : List (String × Json))
    (h : node.get "releases" = some (Json.obj fs)) :
    nodeReleases node = fs.map (fun kv => kv.2) := by
  simp [nodeReleases, h]

theorem nodeReleases_of_falsy (node : Json) (h : Json.jsTruthy node = false) :
    nodeReleases node = [] := by
  cases node with
  | obj fs => simp [Json.jsTruthy] at h
  | arr xs => simp [Json.jsTruthy] at h
  | null => rfl
  | bool b => rfl
  | num n => rfl
  | str s => rfl

/-- The backfill step only rewrites a falsy releases member (to `\x7b\x7d`);
a truthy one is preserved. -/
theorem backfill_get_releases_inv (node : Json) (pn ds : String) (X : Json)
    (h : (backfillPackageNode node pn ds).get "releases" = some X) :
    node.get "releases" = some X ∨
      (X = Json.obj [] ∧ Json.optTruthy (node.get "releases") = false) := by
  simp only [backfillPackageNode] at h
  have e1 : (if Json.optTruthy (node.get "name") = true then node
      else node.setField "name" (Json.str pn)).get "releases" = node.get "releases" := by
    split
    · rfl
    · exact get_setField_ne _ _ _ _ (by decide)
  generalize hA : (if Json.optTruthy (node.get "name") = true then node
      else node.setField "name" (Json.str pn)) = n1 at h e1
  have e2 : (if Json.optTruthy (n1.get "description") = true then n1
      else n1.setField "description" (Json.str ds)).get "releases" = node.get "releases" := by
    split
    · exact e1
    · rw [get_setField_ne _ _ _ _ (by decide)]; exact e1
  generalize hB : (if Json.optTruthy (n1.get "description") = true then n1
      else n1.setField "description" (Json.str ds)) = n2 at h e2
  by_cases hc : Json.optTruthy (n2.get "releases") = true
  · rw [if_pos hc, e2] at h
    exact Or.inl h
  · rw [if_neg hc] at h
    rw [e2] at hc
    cases n2 with
    | obj fs =>
      simp only [Json.setField, Json.get, lookupField_replaceField_self,
        Option.some.injEq] at h
      exact Or.inr ⟨h.symm, Bool.not_eq_true _ ▸ hc⟩
    | null => simp [Json.setField, Json.get] at h
    | bool b => simp [Json.setField, Json.get] at h
    | num n => simp [Json.setField, Json.get] at h
    | str s => simp [Json.setField, Json.get] at h
    | arr xs => simp [Json.setField, Json.get] at h

/-- Structural description of a successful `applyToPackageReleases`. -/
theorem applyToPackageReleases_ok_decomp (node : Json) (pn ver : String)
    (payload : IndexReleasePayload) (node' : Json)
    (hok : applyToPackageReleases node pn ver payload = Except.ok node') :
    (∃ rels, (backfillPackageNode node pn payload.description).get "releases"
        = some (Json.arr rels) ∧
      rels.any (releaseVersionMatches ver) = false ∧
      node' = (backfillPackageNode node pn payload.description).setField "releases"
        (Json.arr (rels ++ [payload.toJson]))) ∨
    (∃ rfs, (backfillPackageNode node pn payload.description).get "releases"
        = some (Json.obj rfs) ∧
      Json.optTruthy (Json.lookupField rfs ver) = false ∧
      node' = (backfillPackageNode node pn payload.description).setField "releases"
        (Json.obj (Json.replaceField rfs ver payload.toJson))) := by
  simp only [applyToPackageReleases] at hok
  generalize hN : backfillPackageNode node pn payload.description = N3 at hok ⊢
  cases hrel : N3.get "releases" with
  | none => rw [hrel] at hok; exact absurd hok (by simp)
  | some X =>
    rw [hrel] at hok
    cases X with
    | null => exact absurd hok (by simp)
    | bool b => exact absurd hok (by simp)
    | num n => exact absurd hok (by simp)
    | str s => exact absurd hok (by simp)
    | arr rels =>
      try simp only [] at hok
      by_cases hany : rels.any (releaseVersionMatches ver) = true
      · rw [if_pos hany] at hok; exact absurd hok (by simp)
      · rw [if_neg hany] at hok
        simp only [Except.ok.injEq] at hok
        exact Or.inl ⟨rels, rfl, Bool.not_eq_true _ ▸ hany, hok.symm⟩
    | obj rfs =>
      try simp only [] at hok
      by_cases hlk : Json.optTruthy (Json.lookupField rfs ver) = true
      · rw [if_pos hlk] at hok; exact absurd hok (by simp)
      · rw [if_neg hlk] at hok
        simp only [Except.ok.injEq] at hok
        exact Or.inr ⟨rfs, rfl, Bool.not_eq_true _ ▸ hlk, hok.symm⟩

/-- The node created for a package not yet present in a map-shape index. -/
def freshPackageNode (packageName : String) : Json :=
  Json.obj [("name", Json.str packageName), ("releases", Json.obj [])]

/-- Structural description of a successful `applyReleaseToIndex`. -/
theorem applyReleaseToIndex_ok_decomp (doc : Json) (pn ver : String)
    (payload : IndexReleasePayload) (doc' : Json)
    (hok : applyReleaseToIndex doc pn ver payload = Except.ok doc') :
    ∃ rf, doc = Json.obj rf ∧
    ((∃ pkgs pkgs', Json.lookupField rf "packages" = some (Json.arr pkgs) ∧
        applyToArrayPackages pkgs pn ver payload.toJson = Except.ok pkgs' ∧
        doc' = Json.obj (Json.replaceField rf "packages" (Json.arr pkgs'))) ∨
     (∃ pfs node node', Json.lookupField rf "packages" = some (Json.obj pfs) ∧
        Json.lookupField pfs pn = some node ∧ Json.jsTruthy node = true ∧
        applyToPackageReleases node pn ver payload = Except.ok node' ∧
        doc' = Json.obj (Json.replaceField rf "packages"
          (Json.obj (Json.replaceField pfs pn node')))) ∨
     (∃ pfs node', Json.lookupField rf "packages" = some (Json.obj pfs) ∧
        Json.optTruthy (Json.lookupField pfs pn) = false ∧
        applyToPackageReleases (freshPackageNode pn) pn ver payload = Except.ok node' ∧
        doc' = Json.obj (Json.replaceField rf "packages"
          (Json.obj (Json.replaceField pfs pn node')))) ∨
     (∃ node', Json.optTruthy (Json.lookupField rf "packages") = false ∧
        (∀ pk, Json.lookupField rf "packages" ≠ some (Json.obj pk)) ∧
        applyToPackageReleases (freshPackageNode pn) pn ver payload = Except.ok node' ∧
        doc' = Json.obj (Json.replaceField (Json.replaceField rf "packages" (Json.obj []))
          "packages" (Json.obj [(pn, node')])))) := by
  simp only [applyReleaseToIndex, structuredCloneJson_eq] at hok
  cases doc with
  | null => exact absurd hok (by simp)
  | bool b => exact absurd hok (by simp)
  | num n => exact absurd hok (by simp)
  | str s => exact absurd hok (by simp)
  | arr xs => exact absurd hok (by simp)
  | obj rf =>
  refine ⟨rf, rfl, ?_⟩
  try simp only [] at hok
  cases hpk : Json.lookupField rf "packages" with
  | some v =>
    rw [hpk] at hok
    cases v with
    | arr pkgs =>
      try simp only [] at hok
      cases happ : applyToArrayPackages pkgs pn ver payload.toJson with
      | error e => rw [happ] at hok; exact absurd hok (by simp [Except.map])
      | ok pkgs' =>
        rw [happ] at hok
        simp only [Except.map, Except.ok.injEq] at hok
        exact Or.inl ⟨pkgs, pkgs', rfl, happ, by simp [hok.symm, Json.setField]⟩
    | obj pfs =>
      try simp only [] at hok
      simp only [optTruthy_some_obj, if_true, Json.get] at hok
      rw [hpk] at hok
      try simp only [] at hok
      by_cases htr : Json.optTruthy (Json.lookupField pfs pn) = true
      · rw [if_pos htr] at hok
        cases hnd : Json.lookupField pfs pn with
        | none => rw [hnd, optTruthy_none_eq] at htr; exact absurd htr (by simp)
        | some nodev =>
          simp only [Json.get, hnd, Json.setField] at hok
          try simp only [] at hok
          cases happ : applyToPackageReleases nodev pn ver payload with
          | error e => rw [happ] at hok; exact absurd hok (by simp [Except.map])
          | ok node' =>
            rw [happ] at hok
            simp only [Except.map, Except.ok.injEq] at hok
            refine Or.inr (Or.inl ⟨pfs, nodev, node', rfl, hnd, ?_, happ,
              by simp [hok.symm]⟩)
            rw [hnd, Json.optTruthy] at htr
            exact htr
      · rw [if_neg htr] at hok
        simp only [Json.setField, Json.get, lookupField_replaceField_self] at hok
        try simp only [if_true] at hok
        try simp only [] at hok
        cases happ : applyToPackageReleases
            (Json.obj [("name", Json.str pn), ("releases", Json.obj [])]) pn ver payload with
        | error e => rw [happ] at hok; exact absurd hok (by simp [Except.map])
        | ok node' =>
          rw [happ] at hok
          simp only [Except.map, Except.ok.injEq] at hok
          refine Or.inr (Or.inr (Or.inl ⟨pfs, node', rfl,
            Bool.not_eq_true _ ▸ htr, happ, ?_⟩))
          rw [hok.symm]
          simp [replaceField_replaceField]
    | null =>
      try simp only [] at hok
      simp only [optTruthy_some_null, Bool.false_eq_true, if_false, Json.setField, Json.get,
        lookupField_replaceField_self, Json.lookupField, optTruthy_none_eq] at hok
      try simp only [if_true] at hok
      try simp only [] at hok
      cases happ : applyToPackageReleases
          (Json.obj [("name", Json.str pn), ("releases", Json.obj [])]) pn ver payload with
      | error e => rw [happ] at hok; exact absurd hok (by simp [Except.map])
      | ok node' =>
        rw [happ] at hok
        simp only [Except.map, Except.ok.injEq] at hok
        refine Or.inr (Or.inr (Or.inr ⟨node', by simp [Json.optTruthy, Json.jsTruthy],
          by simp, happ, ?_⟩))
        rw [hok.symm]
        simp [Json.setField, Json.replaceField]
    | bool b =>
      cases b with
      | false =>
        try simp only [] at hok
        simp only [optTruthy_some_bool, Bool.false_eq_true, if_false, Json.setField, Json.get,
          lookupField_replaceField_self, Json.lookupField, optTruthy_none_eq] at hok
        try simp only [if_true] at hok
        try simp only [] at hok
        cases happ : applyToPackageReleases
            (Json.obj [("name", Json.str pn), ("releases", Json.obj [])]) pn ver payload with
        | error e => rw [happ] at hok; exact absurd hok (by simp [Except.map])
        | ok node' =>
          rw [happ] at hok
          simp only [Except.map, Except.ok.injEq] at hok
          refine Or.inr (Or.inr (Or.inr ⟨node', by simp [Json.optTruthy, Json.jsTruthy],
            by simp, happ, ?_⟩))
          rw [hok.symm]
          simp [Json.setField, Json.replaceField]
      | true =>
        try simp only [] at hok
        simp only [optTruthy_some_bool, if_true, Json.get] at hok
        rw [hpk] at hok
        exact absurd hok (by simp)
    | num n =>
      by_cases hn : n = 0
      · subst hn
        try simp only [] at hok
        simp only [optTruthy_some_num, bne_self_eq_false, Bool.false_eq_true, if_false,
          Json.setField, Json.get, lookupField_replaceField_self, Json.lookupField,
          optTruthy_none_eq] at hok
        try simp only [if_true] at hok
        try simp only [] at hok
        cases happ : applyToPackageReleases
            (Json.obj [("name", Json.str pn), ("releases", Json.obj [])]) pn ver payload with
        | error e => rw [happ] at hok; exact absurd hok (by simp [Except.map])
        | ok node' =>
          rw [happ] at hok
          simp only [Except.map, Except.ok.injEq] at hok
          refine Or.inr (Or.inr (Or.inr ⟨node', by simp [Json.optTruthy, Json.jsTruthy],
            by simp, happ, ?_⟩))
          rw [hok.symm]
          simp [Json.setField, Json.replaceField]
      · try simp only [] at hok
        have hb : (n != 0) = true := by simpa using hn
        simp only [optTruthy_some_num, hb, if_true, Json.get] at hok
        rw [hpk] at hok
        exact absurd hok (by simp)
    | str s =>
      by_cases hs : s = ""
      · subst hs
        try simp only [] at hok
        have h0 : Json.optTruthy (some (Json.str "")) = false := rfl
        simp only [h0, Bool.false_eq_true, if_false, Json.setField, Json.get,
          lookupField_replaceField_self, Json.lookupField, optTruthy_none_eq] at hok
        try simp only [if_true] at hok
        try simp only [] at hok
        cases happ : applyToPackageReleases
            (Json.obj [("name", Json.str pn), ("releases", Json.obj [])]) pn ver payload with
        | error e => rw [happ] at hok; exact absurd hok (by simp [Except.map])
        | ok node' =>
          rw [happ] at hok
          simp only [Except.map, Except.ok.injEq] at hok
          refine Or.inr (Or.inr (Or.inr ⟨node', by simp [Json.optTruthy, Json.jsTruthy],
            by simp, happ, ?_⟩))
          rw [hok.symm]
          simp [Json.setField, Json.replaceField]
      · try simp only [] at hok
        have hb : decide (s ≠ "") = true := by simpa using hs
        simp only [optTruthy_some_str, hb, if_true, Json.get] at hok
        rw [hpk] at hok
        exact absurd hok (by simp)
  | none =>
    rw [hpk] at hok
    try simp only [] at hok
    simp only [optTruthy_none_eq, Bool.false_eq_true, if_false, Json.setField, Json.get,
      lookupField_replaceField_self, Json.lookupField, optTruthy_none_eq] at hok
    try simp only [if_true] at hok
    try simp only [] at hok
    cases happ : applyToPackageReleases
        (Json.obj [("name", Json.str pn), ("releases", Json.obj [])]) pn ver payload with
    | error e => rw [happ] at hok; exact absurd hok (by simp [Except.map])
    | ok node' =>
      rw [happ] at hok
      simp only [Except.map, Except.ok.injEq] at hok
      refine Or.inr (Or.inr (Or.inr ⟨node', by simp [Json.optTruthy], by simp,
        happ, ?_⟩))
      rw [hok.symm]
      simp [Json.setField, Json.replaceField]

theorem isPkgNodeNamed_of_other (node : Json) (pn q : String)
    (h : isPkgNodeNamed pn node = true) (hq : jsToLower q ≠ jsToLower pn) :
    isPkgNodeNamed q node = false := by
  unfold isPkgNodeNamed at h ⊢
  cases hg : node.get "name" with
  | none => rw [hg] at h
  | some v =>
    rw [hg] at h
    cases v with
    | str s =>
      try simp only [] at h ⊢
      simp only [decide_eq_true_eq] at h
      simp only [decide_eq_false_iff_not]
      intro hc
      exact hq (hc.symm.trans h)
    | null => simp at h
    | bool b => simp at h
    | num n => simp at h
    | arr xs => simp at h
    | obj fs => simp at h

theorem nodeReleases_of_falsyRel (node : Json)
    (h : Json.optTruthy (node.get "releases") = false) : nodeReleases node = [] := by
  unfold nodeReleases
  cases hg : node.get "releases" with
  | none => rfl
  | some v =>
    rw [hg] at h
    cases v with
    | null => rfl
    | bool b => rfl
    | num n => rfl
    | str s => rfl
    | arr xs => simp [Json.optTruthy, Json.jsTruthy] at h
    | obj fs => simp [Json.optTruthy, Json.jsTruthy] at h

/-- Applying to a freshly created package node records exactly the payload. -/
theorem nodeReleases_fresh_apply (pn ver : String) (payload : IndexReleasePayload)
    (node' : Json)
    (happ : applyToPackageReleases (freshPackageNode pn) pn ver payload = Except.ok node') :
    nodeReleases node' = [payload.toJson] := by
  have hfg : (backfillPackageNode (freshPackageNode pn) pn payload.description).get "releases"
      = some (Json.obj []) := by
    apply backfillPackageNode_get_releases
    · simp [freshPackageNode, Json.get, Json.lookupField]
    · rfl
  rcases applyToPackageReleases_ok_decomp _ pn ver payload node' happ with
    ⟨rels, hbg, hano, hnode'⟩ | ⟨rfs, hbg, hlk, hnode'⟩
  · rw [hfg] at hbg; exact absurd hbg (by simp)
  · rw [hfg] at hbg
    have hrfs : [] = rfs := by
      injection hbg with h1
      injection h1 with h2
    subst hrfs
    obtain ⟨nf3, hnf3⟩ := get_some_obj hfg
    rw [hnode']
    rw [nodeReleases_of_obj _ _ (get_setField_self _ _ _ _ hnf3)]
    simp [Json.replaceField]

/-- Claim C2, amended: a successful apply leaves every root member other than
`packages` unchanged, preserves the index shape, and — provided the map-shape
releases map does not already carry the applied version key (a falsy value
under that exact key would be overwritten instead) — adds exactly the payload
to the target package's release entries and leaves every other package's
entries unchanged. The mutator works on a structural deep copy
(`structuredCloneJson doc = doc`), so the input document value is never
mutated. -/
theorem applyReleaseToIndex_additive (doc : Json) (packageName version : String)
    (payload : IndexReleasePayload) (doc' : Json)
    (hok : applyReleaseToIndex doc packageName version payload = Except.ok doc')
    (hfresh : mapReleasesHasKey doc packageName version = false) :
    structuredCloneJson doc = doc ∧
    (∀ k, k ≠ "packages" → doc'.get k = doc.get k) ∧
    ((∃ pkgs, doc.get "packages" = some (Json.arr pkgs)) →
      ∃ pkgs', doc'.get "packages" = some (Json.arr pkgs')) ∧
    ((∀ pkgs, doc.get "packages" ≠ some (Json.arr pkgs)) →
      ∃ pfs', doc'.get "packages" = some (Json.obj pfs')) ∧
    List.Perm (docReleaseEntries doc' packageName)
      (payload.toJson :: docReleaseEntries doc packageName) ∧
    (∀ q, jsToLower q ≠ jsToLower packageName →
      docReleaseEntries doc' q = docReleaseEntries doc q) := by
  obtain ⟨rf, hdoc, hcase⟩ :=
    applyReleaseToIndex_ok_decomp doc packageName version payload doc' hok
  subst hdoc
  refine ⟨structuredCloneJson_eq _, ?_⟩
  rcases hcase with ⟨pkgs, pkgs', hpk, happ, hdoc'⟩ |
    ⟨pfs, nodev, node', hpk, hnd, htr, happ, hdoc'⟩ |
    ⟨pfs, node', hpk, hfal, happ, hdoc'⟩ |
    ⟨node', hfal, hnobj, happ, hdoc'⟩
  · -- array shape
    subst hdoc'
    refine ⟨?_, ?_, ?_, ?_, ?_⟩
    · intro k hk
      simp [Json.get, lookupField_replaceField_ne _ _ _ _ hk]
    · intro _
      exact ⟨pkgs', by simp [Json.get, lookupField_replaceField_self]⟩
    · intro hno
      exact absurd (show Json.get (Json.obj rf) "packages" = some (Json.arr pkgs) by
        simp [Json.get, hpk]) (hno pkgs)
    · rcases applyToArrayPackages_ok_decomp pkgs packageName version payload.toJson pkgs' happ
        with ⟨hall, hres⟩ | ⟨A, node, B, rels, hsplit, hA, hm, hr, hano, hres⟩
      · subst hres
        have hfilter : pkgs.filter (isPkgNodeNamed packageName) = [] :=
          List.filter_eq_nil_iff.mpr (fun x hx => by simp [hall x hx])
        have hfreshname : isPkgNodeNamed packageName (Json.obj [("name", Json.str packageName),
            ("releases", Json.arr [payload.toJson])]) = true := by
          simp [isPkgNodeNamed, Json.get, Json.lookupField]
        simp [docReleaseEntries, Json.get, lookupField_replaceField_self, hpk,
          List.filter_append, hfilter, hfreshname, nodeReleases, Json.lookupField]
      · subst hres hsplit
        obtain ⟨nf, hnf⟩ := get_some_obj hr
        have hfA : A.filter (isPkgNodeNamed packageName) = [] :=
          List.filter_eq_nil_iff.mpr (fun x hx => by simp [hA x hx])
        have hm' : isPkgNodeNamed packageName
            (node.setField "releases" (Json.arr (rels ++ [payload.toJson]))) = true := by
          rw [isPkgNodeNamed_setField_releases]; exact hm
        have hrel' : nodeReleases
            (node.setField "releases" (Json.arr (rels ++ [payload.toJson])))
            = rels ++ [payload.toJson] :=
          nodeReleases_of_arr _ _ (get_setField_self _ _ _ _ hnf)
        simp only [docReleaseEntries, Json.get, lookupField_replaceField_self, hpk,
          List.filter_append, List.filter_cons, hfA, hm, hm', if_true, List.map_append,
          List.map_cons, List.flatten_append, List.flatten_cons, List.nil_append,
          hrel', nodeReleases_of_arr node rels hr, List.append_assoc, List.singleton_append]
        exact List.perm_middle
    · intro q hq
      rcases applyToArrayPackages_ok_decomp pkgs packageName version payload.toJson pkgs' happ
        with ⟨hall, hres⟩ | ⟨A, node, B, rels, hsplit, hA, hm, hr, hano, hres⟩
      · subst hres
        have hfreshq : isPkgNodeNamed q (Json.obj [("name", Json.str packageName),
            ("releases", Json.arr [payload.toJson])]) = false := by
          simp only [isPkgNodeNamed, Json.get, Json.lookupField]
          simp [decide_eq_false_iff_not]
          intro hc
          exact hq hc.symm
        simp [docReleaseEntries, Json.get, lookupField_replaceField_self, hpk,
          List.filter_append, hfreshq]
      · subst hres hsplit
        have hmq : isPkgNodeNamed q node = false := isPkgNodeNamed_of_other node packageName q hm hq
        have hmq' : isPkgNodeNamed q
            (node.setField "releases" (Json.arr (rels ++ [payload.toJson]))) = false := by
          rw [isPkgNodeNamed_setField_releases]; exact hmq
        simp [docReleaseEntries, Json.get, lookupField_replaceField_self, hpk,
          List.filter_append, List.filter_cons, hmq, hmq']
  · -- map shape, existing truthy node
    subst hdoc'
    refine ⟨?_, ?_, ?_, ?_, ?_⟩
    · intro k hk
      simp [Json.get, lookupField_replaceField_ne _ _ _ _ hk]
    · rintro ⟨pkgs, hcontra⟩
      simp [Json.get, hpk] at hcontra
    · intro _
      exact ⟨Json.replaceField pfs packageName node',
        by simp [Json.get, lookupField_replaceField_self]⟩
    · rcases applyToPackageReleases_ok_decomp nodev packageName version payload node' happ with
        ⟨rels, hbg, hano, hnode'⟩ | ⟨rfs, hbg, hlk, hnode'⟩
      · rcases backfill_get_releases_inv nodev packageName payload.description _ hbg with
          hold | ⟨hX, hfal2⟩
        · obtain ⟨nf3, hnf3⟩ := get_some_obj hbg
          have hnew : nodeReleases node' = rels ++ [payload.toJson] := by
            rw [hnode']
            exact nodeReleases_of_arr _ _ (get_setField_self _ _ _ _ hnf3)
          have holdr : nodeReleases nodev = rels := nodeReleases_of_arr _ _ hold
          simp only [docReleaseEntries, Json.get, lookupField_replaceField_self, hpk, hnd,
            hnew, holdr]
          exact List.perm_append_singleton _ _
        · exact absurd hX (by simp)
      · have hnone : Json.lookupField rfs version = none := by
          rcases backfill_get_releases_inv nodev packageName payload.description _ hbg with
            hold | ⟨hX, hfal2⟩
          · have e : Json.get (Json.obj rf) "packages" = some (Json.obj pfs) := by
              simp [Json.get, hpk]
            simp only [mapReleasesHasKey, e, hnd, hold] at hfresh
            cases hlkv : Json.lookupField rfs version with
            | none => rfl
            | some w => rw [hlkv] at hfresh; simp at hfresh
          · have hrfs : rfs = [] := by injection hX
            subst hrfs
            rfl
        obtain ⟨nf3, hnf3⟩ := get_some_obj hbg
        have hnew : nodeReleases node' = rfs.map (fun kv => kv.2) ++ [payload.toJson] := by
          rw [hnode']
          rw [nodeReleases_of_obj _ _ (get_setField_self _ _ _ _ hnf3)]
          rw [replaceField_append_of_lookup_none _ _ _ hnone]
          simp
        have holdr : nodeReleases nodev = rfs.map (fun kv => kv.2) := by
          rcases backfill_get_releases_inv nodev packageName payload.description _ hbg with
            hold | ⟨hX, hfal2⟩
          · exact nodeReleases_of_obj _ _ hold
          · have hrfs : rfs = [] := by injection hX
            subst hrfs
            simp [nodeReleases_of_falsyRel _ hfal2]
        simp only [docReleaseEntries, Json.get, lookupField_replaceField_self, hpk, hnd,
          hnew, holdr]
        exact List.perm_append_singleton _ _
    · intro q hq
      have hne : q ≠ packageName := fun hc => hq (by rw [hc])
      simp [docReleaseEntries, Json.get, lookupField_replaceField_self, hpk,
        lookupField_replaceField_ne _ _ _ _ hne]
  · -- map shape, package absent or falsy at the key
    subst hdoc'
    refine ⟨?_, ?_, ?_, ?_, ?_⟩
    · intro k hk
      simp [Json.get, lookupField_replaceField_ne _ _ _ _ hk]
    · rintro ⟨pkgs, hcontra⟩
      simp [Json.get, hpk] at hcontra
    · intro _
      exact ⟨Json.replaceField pfs packageName node',
        by simp [Json.get, lookupField_replaceField_self]⟩
    · have hnew := nodeReleases_fresh_apply packageName version payload node' happ
      have holdz : docReleaseEntries (Json.obj rf) packageName = [] := by
        cases hnd2 : Json.lookupField pfs packageName with
        | none => simp [docReleaseEntries, Json.get, hpk, hnd2]
        | some v =>
          rw [hnd2] at hfal
          simp only [docReleaseEntries, Json.get, hpk, hnd2]
          exact nodeReleases_of_falsy v (by simpa [Json.optTruthy] using hfal)
      rw [holdz]
      simp only [docReleaseEntries, Json.get, lookupField_replaceField_self, hpk, hnew,
        if_true]
      try simp only []
      exact List.Perm.refl _
    · intro q hq
      have hne : q ≠ packageName := fun hc => hq (by rw [hc])
      simp [docReleaseEntries, Json.get, lookupField_replaceField_self, hpk,
        lookupField_replaceField_ne _ _ _ _ hne]
  · -- packages member absent or falsy at the root
    rw [replaceField_replaceField] at hdoc'
    subst hdoc'
    refine ⟨?_, ?_, ?_, ?_, ?_⟩
    · intro k hk
      simp [Json.get, lookupField_replaceField_ne _ _ _ _ hk]
    · rintro ⟨pkgs, hcontra⟩
      simp only [Json.get] at hcontra
      rw [hcontra] at hfal
      simp [Json.optTruthy, Json.jsTruthy] at hfal
    · intro _
      exact ⟨[(packageName, node')], by simp [Json.get, lookupField_replaceField_self]⟩
    · have hnew := nodeReleases_fresh_apply packageName version payload node' happ
      have holdz : docReleaseEntries (Json.obj rf) packageName = [] := by
        cases hlp : Json.lookupField rf "packages" with
        | none => simp [docReleaseEntries, Json.get, hlp]
        | some v =>
          rw [hlp] at hfal
          cases v with
          | arr xs => simp [Json.optTruthy, Json.jsTruthy] at hfal
          | obj pk => exact absurd hlp (hnobj pk)
          | null => simp [docReleaseEntries, Json.get, hlp]
          | bool b => simp [docReleaseEntries, Json.get, hlp]
          | num n => simp [docReleaseEntries, Json.get, hlp]
          | str s => simp [docReleaseEntries, Json.get, hlp]
      rw [holdz]
      have hl1 : Json.lookupField [(packageName, node')] packageName = some node' := by
        simp [Json.lookupField]
      simp only [docReleaseEntries, Json.get, lookupField_replaceField_self, hl1, hnew]
      exact List.Perm.refl _
    · intro q hq
      have hne : q ≠ packageName := fun hc => hq (by rw [hc])
      have hq2 : Json.lookupField [(packageName, node')] q = none := by
        simp [Json.lookupField, Ne.symm hne]
      have holdz : docReleaseEntries (Json.obj rf) q = [] := by
        cases hlp : Json.lookupField rf "packages" with
        | none => simp [docReleaseEntries, Json.get, hlp]
        | some v =>
          rw [hlp] at hfal
          cases v with
          | arr xs => simp [Json.optTruthy, Json.jsTruthy] at hfal
          | obj pk => exact absurd hlp (hnobj pk)
          | null => simp [docReleaseEntries, Json.get, hlp]
          | bool b => simp [docReleaseEntries, Json.get, hlp]
          | num n => simp [docReleaseEntries, Json.get, hlp]
          | str s => simp [docReleaseEntries, Json.get, hlp]
      rw [holdz]
      simp [docReleaseEntries, Json.get, lookupField_replaceField_self, hq2]

/-- An index whose map-shape releases carry a null placeholder under the
version key. -/
def c2Doc : Json :=
  Json.obj [("packages", Json.obj [("p",
    Json.obj [("releases", Json.obj [("1.0.0", Json.null)])])])]

/-- The result of applying `p@1.0.0` to `c2Doc`: the null placeholder has
been replaced by the payload (and name/description were backfilled). -/
def c2Doc' : Json :=
  Json.obj [("packages", Json.obj [("p",
    Json.obj [("releases", Json.obj [("1.0.0", w1Payload.toJson)]),
      ("name", Json.str "p"), ("description", Json.str "demo")])])]

/-- Claim C2 as stated is false: on a map-shape index holding a falsy (null)
value under the applied version key, `applyReleaseToIndex` succeeds and
overwrites that prior entry in place — the release list keeps length one and
its sole entry changes, so a prior entry is edited and no entry is added. -/
theorem c2_counterexample :
    applyReleaseToIndex c2Doc "p" "1.0.0" w1Payload = Except.ok c2Doc' ∧
    docReleaseEntries c2Doc "p" = [Json.null] ∧
    docReleaseEntries c2Doc' "p" = [w1Payload.toJson] ∧
    w1Payload.toJson ≠ Json.null :=
  ⟨rfl, rfl, rfl, by simp [IndexReleasePayload.toJson]⟩

/-- Witness for `applyReleaseToIndex_additive` at a concrete input. -/
theorem applyReleaseToIndex_additive_witness :
    List.Perm (docReleaseEntries w1Doc1 "p")
      (w1Payload.toJson ::
        docReleaseEntries (Json.obj [("packages", Json.arr [])]) "p") :=
  (applyReleaseToIndex_additive (Json.obj [("packages", Json.arr [])]) "p" "1.0.0"
    w1Payload w1Doc1 rfl rfl).2.2.2.2.1

/-! ## Semantic version comparison (claim C4) -/

/-- `normalizeVersion` (resolver.ts, line 511): trim and strip one leading
`v`/`V`. -/
def normalizeVersion (value : String) : String :=
  match (jsTrim value).data with
  | c :: rest => if c = 'v' || c = 'V' then ⟨rest⟩ else ⟨c :: rest⟩
  | [] => ""

/-- `aPart.localeCompare(bPart)`, modelled as code-point string order. -/
def localeCompareInt (a b : String) : Int :=
  if a < b then -1 else if b < a then 1 else 0

theorem localeCompareInt_neg_iff (a b : String) : localeCompareInt a b < 0 ↔ a < b := by
  unfold localeCompareInt
  by_cases h1 : a < b
  · simp [h1]
  · rw [if_neg h1]
    by_cases h2 : b < a
    · simp [h2, h1]
    · simp [h2, h1]

theorem localeCompareInt_eq_zero_iff (a b : String) : localeCompareInt a b = 0 ↔ a = b := by
  unfold localeCompareInt
  by_cases h1 : a < b
  · simp [h1, ne_of_lt h1]
  · rw [if_neg h1]
    by_cases h2 : b < a
    · simp [h2, (ne_of_lt h2).symm]
    · simp only [if_neg h2]
      have : a = b := le_antisymm (not_lt.mp h2) (not_lt.mp h1)
      simp [this]

theorem localeCompareInt_anti (a b : String) : localeCompareInt a b = -localeCompareInt b a := by
  unfold localeCompareInt
  rcases lt_trichotomy a b with h | h | h
  · rw [if_pos h, if_neg (asymm h), if_pos h]
  · subst h
    rw [if_neg (lt_irrefl a), if_neg (lt_irrefl a)]
    rfl
  · rw [if_neg (asymm h), if_pos h, if_neg (asymm h), if_pos h]
    omega

/-- The `IndexRelease` shape (resolver.ts, lines 24–37), as produced by
`extractReleases`, which casts JSON payload fields without runtime checks.
`none` models an absent (`undefined`) field. -/
structure IndexRelease where
  version : String
  prerelease : Option Json := none
  platform : Option Json := none
  url : Option Json := none
  checksum : Option Json := none
  sha256 : Option Json := none
  artifact : Option Json := none
  artifacts : Option Json := none
  assets : Option Json := none
  platforms : Option Json := none
  files : Option Json := none
  downloads : Option Json := none
deriving Inhabited

/-- `PackageEntry` (resolver.ts, lines 39–42). -/
structure PackageEntry where
  name : String
  releases : List IndexRelease
deriving Inhabited

/-- `isPrerelease` (resolver.ts, lines 515–520): the `prerelease` flag when
the field is present (by JS truthiness), otherwise a hyphen anywhere in the
normalized version string. -/
def isPrerelease (release : IndexRelease) : Bool :=
  match release.prerelease with
  | some v => Json.jsTruthy v
  | none => jsContainsChar (normalizeVersion release.version) '-'

/-- JS truthiness of an optional string option such as `options.version`:
`undefined` and the empty string are falsy. -/
def optStrTruthy : Option String → Bool
  | none => false
  | some s => !(s = "" : Bool)

/-- Options accepted by `selectRelease`. -/
structure SelectOptions where
  version : Option String := none
  includePrerelease : Bool := false

theorem find?_pairwise_le {α : Type} (le : α → α → Bool) (p : α → Bool)
    (l : List α) :
    ∀ r : α, l.Pairwise (fun a b => le a b = true) → l.find? p = some r →
      ∀ x ∈ l, p x = true → x = r ∨ le r x = true := by
  induction l with
  | nil => intro r _ h; simp at h
  | cons a l ih =>
    intro r hp h
    rw [List.find?_cons] at h
    cases hpa : p a with
    | true =>
      rw [hpa] at h
      simp only at h
      injection h with hr
      subst hr
      intro x hx _
      rcases List.mem_cons.mp hx with hx' | hx'
      · exact Or.inl hx'
      · exact Or.inr ((List.pairwise_cons.mp hp).1 x hx')
    | false =>
      rw [hpa] at h
      simp only at h
      intro x hx hpx
      rcases List.mem_cons.mp hx with hx' | hx'
      · subst hx'; rw [hpa] at hpx; exact absurd hpx (by simp)
      · exact ih r (List.pairwise_cons.mp hp).2 h x hx' hpx

/-- The two recognized targets. -/
inductive Platform where
  | rp2040 : Platform
  | rp2350 : Platform
deriving DecidableEq, Repr, Inhabited

/-- The string key a `Platform` uses in per-platform maps. -/
def platformKey : Platform → String
  | Platform.rp2040 => "rp2040"
  | Platform.rp2350 => "rp2350"

/-- `normalizePlatform` (resolver.ts, lines 117–126): falsy input and
unrecognized names normalize to `undefined`; recognized names are matched
after trimming and lowercasing.  (Only string values reach this function in
the paths modelled here.) -/
def normalizePlatform : Option Json → Option Platform
  | none => none
  | some v =>
    if !Json.jsTruthy v then none
    else
      match v with
      | Json.str s =>
        let normalized := jsToLower (jsTrim s)
        if normalized = "rp2040" then some Platform.rp2040
        else if normalized = "rp2350" then some Platform.rp2350
        else none
      | _ => none

/-- The artifact record `selectArtifact` produces (resolver.ts, lines 18–22).
The `url` is kept as the raw JSON value the code extracts. -/
structure IndexArtifact where
  url : Json
  checksum : Option Json := none
  sha256 : Option Json := none
deriving Inhabited

/-- `a || b` on two possibly-missing JSON values, as used for
`obj.sha256 || obj.sha_256`: the first operand when truthy, else the
second operand. -/
def jsOrOpt (a b : Option Json) : Option Json :=
  match a with
  | some v => if Json.jsTruthy v then some v else b
  | none => b

/-- `obj.url || obj.downloadUrl || obj.asset || obj.file`, followed by the
`if (!url)` guard: the first truthy candidate, or `none` when every candidate
is falsy or missing. -/
def firstTruthy : List (Option Json) → Option Json
  | [] => none
  | x :: rest =>
    match x with
    | some v => if Json.jsTruthy v then some v else firstTruthy rest
    | none => firstTruthy rest

/-- `normalizeArtifact` (resolver.ts, lines 325–345): falsy values yield no
artifact, a (truthy) string is a bare URL, an object contributes the first
truthy of `url`/`downloadUrl`/`asset`/`file` plus `checksum` and
`sha256`/`sha_256`; anything else yields no artifact.  An artifact it returns
always has a truthy `url`, so the callers' `artifact?.url` test is simply
`isSome`. -/
def normalizeArtifact (value : Option Json) : Option IndexArtifact :=
  match value with
  | none => none
  | some v =>
    if !Json.jsTruthy v then none
    else
      match v with
      | Json.str s => some { url := Json.str s }
      | Json.obj fields =>
        (match firstTruthy [Json.lookupField fields "url",
            Json.lookupField fields "downloadUrl", Json.lookupField fields "asset",
            Json.lookupField fields "file"] with
        | none => none
        | some url =>
          some ⟨url, Json.lookupField fields "checksum",
            jsOrOpt (Json.lookupField fields "sha256")
              (Json.lookupField fields "sha_256")⟩)
      | _ => none

/-- One iteration of the maps loop of `selectArtifact`: skip a missing or
falsy map, else normalize its entry for the requested platform. -/
def mapEntryArtifact (m : Option Json) (platform : Platform) : Option IndexArtifact :=
  match m with
  | none => none
  | some v =>
    if Json.jsTruthy v then normalizeArtifact (Json.get v (platformKey platform))
    else none

/-- The `for (const map of maps)` loop of `selectArtifact` (lines 286–296):
the first map contributing an artifact wins. -/
def selectFromMaps : List (Option Json) → Platform → Option IndexArtifact
  | [], _ => none
  | m :: rest, platform =>
    match mapEntryArtifact m platform with
    | some artifact => some artifact
    | none => selectFromMaps rest platform

/-- The `for (const asset of arrayAssets)` loop (lines 302–310): the first
asset tagged with the requested platform that normalizes to an artifact. -/
def assetLoop : List Json → Platform → Option IndexArtifact
  | [], _ => none
  | asset :: rest, platform =>
    if normalizePlatform (Json.get asset "platform") = some platform then
      match normalizeArtifact (some asset) with
      | some artifact => some artifact
      | none => assetLoop rest platform
    else assetLoop rest platform

/-- `Array.isArray(release.assets) ? release.assets : []` feeding the asset
loop. -/
def selectFromAssets (assets : Option Json) (platform : Platform) : Option IndexArtifact :=
  match assets with
  | some (Json.arr items) => assetLoop items platform
  | _ => none

/-- The embedded-pair guard of line 298:
`release.platform && normalizePlatform(release.platform) === platform && release.url`. -/
def embeddedPairHit (release : IndexRelease) (platform : Platform) : Bool :=
  Json.optTruthy release.platform &&
    decide (normalizePlatform release.platform = some platform) &&
    Json.optTruthy release.url

/-- The artifact built from the release's own `url`/`checksum`/`sha256`
fields (lines 298–299 and 317–319). -/
def bareUrlArtifact (release : IndexRelease) : IndexArtifact :=
  { url := release.url.getD Json.null, checksum := release.checksum,
    sha256 := release.sha256 }

/-- `selectArtifact` (resolver.ts, lines 285–323). -/
def selectArtifact (release : IndexRelease) (platform : Platform) : Option IndexArtifact :=
  match selectFromMaps [release.artifacts, release.platforms, release.files,
      release.downloads] platform with
  | some artifact => some artifact
  | none =>
    if embeddedPairHit release platform then some (bareUrlArtifact release)
    else
      match selectFromAssets release.assets platform with
      | some artifact => some artifact
      | none =>
        match normalizeArtifact release.artifact with
        | some artifact => some artifact
        | none =>
          if Json.optTruthy release.url then some (bareUrlArtifact release)
          else none

/-- C8: `selectArtifact` resolves in priority order — the per-platform maps
(`artifacts` first, then `platforms`, `files`, `downloads`), then the embedded
platform+url pair, then the platform-tagged asset list, then the generic
`artifact` field, then the bare top-level `url`; the first candidate with a
truthy URL wins, so a release exposing both a platform-map entry and a bare
top-level `url` for the same platform yields the platform-map entry. -/
theorem selectArtifact_priority_chain :
    (∀ (release : IndexRelease) (platform : Platform) (a : IndexArtifact),
        mapEntryArtifact release.artifacts platform = some a →
        selectArtifact release platform = some a)
  ∧ (∀ (release : IndexRelease) (platform : Platform) (a : IndexArtifact),
        selectFromMaps [release.artifacts, release.platforms, release.files,
            release.downloads] platform = some a →
        selectArtifact release platform = some a)
  ∧ (∀ (release : IndexRelease) (platform : Platform),
        selectFromMaps [release.artifacts, release.platforms, release.files,
            release.downloads] platform = none →
        embeddedPairHit release platform = true →
        selectArtifact release platform = some (bareUrlArtifact release))
  ∧ (∀ (release : IndexRelease) (platform : Platform) (a : IndexArtifact),
        selectFromMaps [release.artifacts, release.platforms, release.files,
            release.downloads] platform = none →
        embeddedPairHit release platform = false →
        selectFromAssets release.assets platform = some a →
        selectArtifact release platform = some a)
  ∧ (∀ (release : IndexRelease) (platform : Platform) (a : IndexArtifact),
        selectFromMaps [release.artifacts, release.platforms, release.files,
            release.downloads] platform = none →
        embeddedPairHit release platform = false →
        selectFromAssets release.assets platform = none →
        normalizeArtifact release.artifact = some a →
        selectArtifact release platform = some a)
  ∧ (∀ (release : IndexRelease) (platform : Platform),
        selectFromMaps [release.artifacts, release.platforms, release.files,
            release.downloads] platform = none →
        embeddedPairHit release platform = false →
        selectFromAssets release.assets platform = none →
        normalizeArtifact release.artifact = none →
        selectArtifact release platform =
          (if Json.optTruthy release.url then some (bareUrlArtifact release) else none))
  ∧ selectArtifact
      { version := "1.0.0",
        platform := some (Json.str "rp2040"),
        url := some (Json.str "https://bare.example/pkg.picopak"),
        artifacts := some (Json.obj
          [("rp2040", Json.str "https://map.example/pkg.picopak")]) }
      Platform.rp2040 =
    some ⟨Json.str "https://map.example/pkg.picopak", none, none⟩ := by
  refine ⟨?_, ?_, ?_, ?_, ?_, ?_, ?_⟩
  · intro release platform a h
    have hm : selectFromMaps [release.artifacts, release.platforms, release.files,
        release.downloads] platform = some a := by
      simp only [selectFromMaps, h]
    simp only [selectArtifact, hm]
  · intro release platform a h
    simp only [selectArtifact, h]
  · intro release platform hmaps hemb
    simp [selectArtifact, hmaps, hemb]
  · intro release platform a hmaps hemb hassets
    simp [selectArtifact, hmaps, hemb, hassets]
  · intro release platform a hmaps hemb hassets hart
    simp [selectArtifact, hmaps, hemb, hassets, hart]
  · intro release platform hmaps hemb hassets hart
    simp [selectArtifact, hmaps, hemb, hassets, hart]
  · rfl

/-- Witness for `selectArtifact_priority_chain`: the `artifacts` map entry is
taken even though a bare `url` is also present. -/
theorem selectArtifact_priority_chain_witness :
    selectArtifact
        { version := "1.0.0",
          url := some (Json.str "https://bare.example/x.picopak"),
          artifacts := some (Json.obj
            [("rp2040", Json.str "https://map.example/x.picopak")]) }
        Platform.rp2040 =
      some ⟨Json.str "https://map.example/x.picopak", none, none⟩ :=
  selectArtifact_priority_chain.1 _ _ _ rfl

/-- `isPackageNameReference` (resolver.ts, lines 62–70), with the
`fs.existsSync` probe abstracted as a predicate on paths. -/
def isPackageNameReference (existsSync : String → Bool) (value : String) : Bool :=
  if decide (value = "") || existsSync value then false
  else if jsEndsWith value ".picopak" then false
  else !jsContainsChar value '\\' && !jsContainsChar value '/' &&
    !jsContainsChar value ':'

/-- The result record of `resolvePackageInput` (resolver.ts, lines 51–57). -/
structure ResolvedPackage where
  packageFile : String
  packageName : String
  version : String
  platform : Platform
  tempPath : Option String := none
deriving DecidableEq, Repr

/-- The options of `resolvePackageInput` that matter to branch selection
(resolver.ts, lines 10–16). -/
structure InstallResolveOptions where
  version : Option String := none
  includePrerelease : Bool := false
  platform : Option Platform := none

/-- `resolvePackageInput` (resolver.ts, lines 72–96).  The remote pipeline
(`resolveRemoteRelease` followed by `downloadReleasePackage` and the record it
builds) is abstracted as `remoteResolve`, and the `detectPlatform` probe as
`detected`. -/
def resolvePackageInput (existsSync : String → Bool)
    (remoteResolve : String → Platform → ResolvedPackage)
    (detected : Platform) (value : String)
    (options : InstallResolveOptions) : ResolvedPackage :=
  if !isPackageNameReference existsSync value then
    { packageFile := value, packageName := "", version := "",
      platform := options.platform.getD Platform.rp2040 }
  else
    remoteResolve value (options.platform.getD detected)

/-- C10: an argument that is empty, names an existing path, ends with
`.picopak`, or contains a backslash, slash, or colon is not a package-name
reference, and `resolvePackageInput` then returns the local-file record
without consulting the remote pipeline (its result does not depend on it);
an argument meeting none of those conditions is a package-name reference and
is resolved through the remote pipeline. -/
theorem resolvePackageInput_local_vs_remote :
    (∀ (existsSync : String → Bool) (value : String),
        (value = "" ∨ existsSync value = true ∨ jsEndsWith value ".picopak" = true ∨
          jsContainsChar value '\\' = true ∨ jsContainsChar value '/' = true ∨
          jsContainsChar value ':' = true) →
        isPackageNameReference existsSync value = false)
  ∧ (∀ (existsSync : String → Bool) (value : String),
        value ≠ "" → existsSync value = false →
        jsEndsWith value ".picopak" = false → jsContainsChar value '\\' = false →
        jsContainsChar value '/' = false → jsContainsChar value ':' = false →
        isPackageNameReference existsSync value = true)
  ∧ (∀ (existsSync : String → Bool)
        (r1 r2 : String → Platform → ResolvedPackage) (detected : Platform)
        (value : String) (options : InstallResolveOptions),
        isPackageNameReference existsSync value = false →
        resolvePackageInput existsSync r1 detected value options =
            resolvePackageInput existsSync r2 detected value options ∧
          resolvePackageInput existsSync r1 detected value options =
            { packageFile := value, packageName := "", version := "",
              platform := options.platform.getD Platform.rp2040 })
  ∧ (∀ (existsSync : String → Bool)
        (remoteResolve : String → Platform → ResolvedPackage)
        (detected : Platform) (value : String) (options : InstallResolveOptions),
        isPackageNameReference existsSync value = true →
        resolvePackageInput existsSync remoteResolve detected value options =
          remoteResolve value (options.platform.getD detected)) := by
  refine ⟨?_, ?_, ?_, ?_⟩
  · intro existsSync value h
    unfold isPackageNameReference
    rcases h with h | h | h | h | h | h
    · subst h; simp
    · simp [h]
    · simp [h]
    · simp [h]
    · simp [h]
    · simp [h]
  · intro existsSync value h1 h2 h3 h4 h5 h6
    unfold isPackageNameReference
    simp [h1, h2, h3, h4, h5, h6]
  · intro existsSync r1 r2 detected value options h
    unfold resolvePackageInput
    rw [h]
    exact ⟨rfl, rfl⟩
  · intro existsSync remoteResolve detected value options h
    unfold resolvePackageInput
    rw [h]
    rfl

/-- Witness for `resolvePackageInput_local_vs_remote`: a `.picopak` argument
is returned as a local file even though the remote pipeline would resolve. -/
theorem resolvePackageInput_local_vs_remote_witness :
    resolvePackageInput (fun _ => false)
        (fun n p => ⟨"REMOTE", n, "9", p, none⟩)
        Platform.rp2040 "lib.picopak" {} =
      ⟨"lib.picopak", "", "", Platform.rp2040, none⟩ :=
  (resolvePackageInput_local_vs_remote.2.2.1 (fun _ => false)
    (fun n p => ⟨"REMOTE", n, "9", p, none⟩)
    (fun _ _ => ⟨"", "", "", Platform.rp2040, none⟩)
    Platform.rp2040 "lib.picopak" {} rfl).2

/-- The downloaded-files store: a path-indexed byte store standing for the
temp directory `downloadReleasePackage` writes into. -/
def fsWrite (fs : List (String × List Nat)) (path : String) (bytes : List Nat) :
    List (String × List Nat) :=
  (path, bytes) :: fs.filter (fun e => e.1 ≠ path)

/-- Whether a path exists in the store. -/
def fsHas (fs : List (String × List Nat)) (path : String) : Bool :=
  fs.any (fun e => decide (e.1 = path))

/-- `fs.readFileSync` on the store (the paths used are always present). -/
def fsRead (fs : List (String × List Nat)) (path : String) : List Nat :=
  match fs.find? (fun e => decide (e.1 = path)) with
  | some e => e.2
  | none => []

/-- The algorithm/value reading of a declared checksum (resolver.ts,
lines 359–360): trim and lowercase, then split an `algorithm:value` form on
the colons (`split(':', 2)` keeps the first two segments); a value without a
colon is implicitly `sha256`. -/
def parseChecksum (checksum : String) : String × String :=
  let normalized := jsToLower (jsTrim checksum)
  if jsContainsChar normalized ':' then
    match jsSplitOnChar ':' normalized with
    | a :: v :: _ => (a, v)
    | [a] => (a, "")
    | [] => ("", "")
  else ("sha256", normalized)

/-- `verifyChecksum` (resolver.ts, lines 358–369), with the SHA-256 digest
abstracted as `sha256Hex`: read the declared checksum with `parseChecksum`,
reject non-sha256 algorithms, then compare the recomputed file hash against
the declared value.  It only ever throws or returns; it never touches the
store. -/
def verifyChecksum (sha256Hex : List Nat → String)
    (fs : List (String × List Nat)) (filePath checksum : String) :
    Except String Unit :=
  let pair := parseChecksum checksum
  if pair.1 ≠ "sha256" then
    Except.error ("Unsupported checksum algorithm \"" ++ pair.1 ++
      "\". Only sha256 is supported.")
  else if sha256Hex (fsRead fs filePath) ≠ pair.2 then
    Except.error "Checksum verification failed for downloaded package"
  else Except.ok ()

/-- `downloadReleasePackage` (resolver.ts, lines 347–356): write the fetched
bytes to the temp file, then verify the checksum when one is supplied; the
pair returned is the call's outcome together with the resulting store. -/
def downloadReleasePackage (sha256Hex : List Nat → String) (netBytes : List Nat)
    (tempFile : String) (fs : List (String × List Nat)) (checksum : Option String) :
    Except String String × List (String × List Nat) :=
  let fs1 := fsWrite fs tempFile netBytes
  match checksum with
  | some c =>
    if c ≠ "" then
      match verifyChecksum sha256Hex fs1 tempFile c with
      | Except.ok _ => (Except.ok tempFile, fs1)
      | Except.error e => (Except.error e, fs1)
    else (Except.ok tempFile, fs1)
  | none => (Except.ok tempFile, fs1)

theorem fsRead_fsWrite (fs : List (String × List Nat)) (p : String) (b : List Nat) :
    fsRead (fsWrite fs p b) p = b := by
  simp [fsRead, fsWrite]

theorem fsHas_fsWrite (fs : List (String × List Nat)) (p : String) (b : List Nat) :
    fsHas (fsWrite fs p b) p = true := by
  simp [fsHas, fsWrite]

theorem verifyChecksum_mismatch (sha256Hex : List Nat → String)
    (fs : List (String × List Nat)) (filePath c : String)
    (halg : (parseChecksum c).1 = "sha256")
    (hmis : sha256Hex (fsRead fs filePath) ≠ (parseChecksum c).2) :
    verifyChecksum sha256Hex fs filePath c =
      Except.error "Checksum verification failed for downloaded package" := by
  unfold verifyChecksum
  simp only []
  rw [if_neg (by simp [halg]), if_pos hmis]

/-- C3 counterexample to the spec's deletion guarantee: a mismatching
checksum makes the download fail with the checksum error, yet the mismatched
file is still present in the resulting store. -/
theorem c3_counterexample :
    downloadReleasePackage (fun _ => "aaaa") [1, 2] "/tmp/pkg.picopak" []
        (some "bbbb") =
      (Except.error "Checksum verification failed for downloaded package",
        [("/tmp/pkg.picopak", [1, 2])]) ∧
    fsHas [("/tmp/pkg.picopak", [1, 2])] "/tmp/pkg.picopak" = true :=
  ⟨rfl, rfl⟩

/-- C3 (amended): when a supplied checksum — in the bare-hex or the
`sha256:hex` form alike — declares a sha256 value differing from the
recomputed hash of the downloaded bytes, the download fails with the
dedicated checksum-mismatch error — but the downloaded file is NOT deleted:
it remains in the store the call returns. -/
theorem downloadReleasePackage_mismatch_keeps_file (sha256Hex : List Nat → String)
    (fs : List (String × List Nat)) (netBytes : List Nat) (tempFile c : String)
    (hc : c ≠ "")
    (halg : (parseChecksum c).1 = "sha256")
    (hmis : sha256Hex netBytes ≠ (parseChecksum c).2) :
    downloadReleasePackage sha256Hex netBytes tempFile fs (some c) =
      (Except.error "Checksum verification failed for downloaded package",
        fsWrite fs tempFile netBytes) ∧
    fsHas (fsWrite fs tempFile netBytes) tempFile = true := by
  constructor
  · unfold downloadReleasePackage
    simp only []
    rw [if_pos hc]
    rw [verifyChecksum_mismatch sha256Hex (fsWrite fs tempFile netBytes)
      tempFile c halg (by rw [fsRead_fsWrite]; exact hmis)]
  · exact fsHas_fsWrite fs tempFile netBytes

/-- Witness for `downloadReleasePackage_mismatch_keeps_file` at concrete
inputs, exercising the `sha256:hex` checksum form. -/
theorem downloadReleasePackage_mismatch_keeps_file_witness :
    downloadReleasePackage (fun _ => "aaaa") [3] "/tmp/w.picopak" []
        (some "sha256:cccc") =
      (Except.error "Checksum verification failed for downloaded package",
        fsWrite [] "/tmp/w.picopak" [3]) ∧
    fsHas (fsWrite [] "/tmp/w.picopak" [3]) "/tmp/w.picopak" = true :=
  downloadReleasePackage_mismatch_keeps_file (fun _ => "aaaa") [] [3]
    "/tmp/w.picopak" "sha256:cccc" (by decide) (by rfl) (by decide)

theorem lookupField_removeKey_self (fs : List (String × Json)) (k : String) :
    Json.lookupField (Json.removeKey fs k) k = none := by
  induction fs with
  | nil => rfl
  | cons e fs ih =>
    obtain ⟨k', v⟩ := e
    by_cases h : k' = k
    · simp [Json.removeKey, Json.lookupField, h] at ih ⊢
      exact ih
    · simp only [Json.removeKey, List.filter_cons] at ih ⊢
      rw [if_pos (by simpa using h)]
      simp only [Json.lookupField, if_neg h]
      exact ih

theorem lookupField_removeKey_ne (fs : List (String × Json)) (k k' : String)
    (h : k' ≠ k) :
    Json.lookupField (Json.removeKey fs k) k' = Json.lookupField fs k' := by
  induction fs with
  | nil => rfl
  | cons e fs ih =>
    obtain ⟨q, v⟩ := e
    by_cases hq : q = k
    · subst hq
      simp only [Json.removeKey, List.filter_cons]
      rw [if_neg (by simp)]
      simp only [Json.lookupField, if_neg (Ne.symm h)] at ih ⊢
      simpa [Json.removeKey] using ih
    · simp only [Json.removeKey, List.filter_cons] at ih ⊢
      rw [if_pos (by simpa using hq)]
      simp only [Json.lookupField]
      by_cases hqk : q = k'
      · rw [if_pos hqk, if_pos hqk]
      · rw [if_neg hqk, if_neg hqk]
        simpa [Json.removeKey] using ih

theorem get_removeField_self (fs : List (String × Json)) (k : String) :
    Json.get (Json.removeField (Json.obj fs) k) k = none := by
  simp only [Json.removeField, Json.get]
  exact lookupField_removeKey_self fs k

theorem get_removeField_ne (fs : List (String × Json)) (k k' : String) (h : k' ≠ k) :
    Json.get (Json.removeField (Json.obj fs) k) k' = Json.get (Json.obj fs) k' := by
  simp only [Json.removeField, Json.get]
  exact lookupField_removeKey_ne fs k k' h

/-- `isNonEmptyString` (part_006, lines 56–58) on a possibly-missing value. -/
def isNonEmptyString (value : Option Json) : Bool :=
  match value with
  | some (Json.str s) => !(jsTrim s = "" : Bool)
  | _ => false

/-- `isPlatform` (part_006, lines 67–69), on the trimmed strings
`asStringArray` produces. -/
def isPlatform (value : String) : Bool :=
  value = "rp2040" || value = "rp2350"

/-- `isBoolean` (part_006, lines 71–73). -/
def isBoolean (value : Option Json) : Bool :=
  match value with
  | some (Json.bool _) => true
  | _ => false

/-- `asStringArray` (part_006, lines 60–65): `undefined` unless the value is
an array of non-empty strings; otherwise the trimmed entries. -/
def asStringArray (value : Option Json) : Option (List String) :=
  match value with
  | some (Json.arr items) =>
    if items.all (fun item => isNonEmptyString (some item)) then
      some (items.map (fun item =>
        match item with
        | Json.str s => jsTrim s
        | _ => ""))
    else none
  | _ => none

/-- `Array.from(new Set(xs))`: order-preserving first-occurrence
deduplication, written with a seen-accumulator. -/
def jsSetDedupAux (seen : List String) : List String → List String
  | [] => []
  | x :: rest =>
    if x ∈ seen then jsSetDedupAux seen rest
    else x :: jsSetDedupAux (x :: seen) rest

/-- `Array.from(new Set(xs))`. -/
def jsSetDedup (xs : List String) : List String := jsSetDedupAux [] xs

/-- The parsed `distribution_tier` (part_006, lines 93–100):
`source-preferred` collapses to `source`. -/
def tierOf (raw : Json) : Option String :=
  match Json.get raw "distribution_tier" with
  | some (Json.str "source") => some "source"
  | some (Json.str "source-preferred") => some "source"
  | some (Json.str "binary-only") => some "binary-only"
  | _ => none

/-- `asStringArray(manifest.platforms)`. -/
def platformsParsed (raw : Json) : Option (List String) :=
  asStringArray (Json.get raw "platforms")

/-- `Array.from(new Set((platforms || []).filter(isPlatform)))`
(part_006, line 110). -/
def normalizedPlatforms (raw : Json) : List String :=
  jsSetDedup (((platformsParsed raw).getD []).filter isPlatform)

/-- `variantsNode?.[platform]`. -/
def variantLookup (raw : Json) (p : String) : Option Json :=
  match Json.get raw "variants" with
  | some v => Json.get v p
  | none => none

/-- `/^[a-fA-F0-9]{64}$/.test(s)`. -/
def isHex64 (s : String) : Bool :=
  decide (s.data.length = 64) &&
    s.data.all (fun ch => ch.isDigit || ('a' ≤ ch && ch ≤ 'f') || ('A' ≤ ch && ch ≤ 'F'))

/-- The validated `binary` record for one platform's variant (part_006,
lines 126–141): `none` unless the variant is an object with a `binary` object
holding a non-empty `path` and a 64-hex `sha256`. -/
def validatedBinary (raw : Json) (p : String) : Option (String × String) :=
  match variantLookup raw p with
  | some (Json.obj vfs) =>
    match Json.lookupField vfs "binary" with
    | some (Json.obj bfs) =>
      match Json.lookupField bfs "path", Json.lookupField bfs "sha256" with
      | some (Json.str pa), some (Json.str sh) =>
        if (jsTrim pa = "" : Bool) || (jsTrim sh = "" : Bool) then none
        else if !isHex64 (jsTrim sh) then none
        else some (jsTrim pa, jsToLower (jsTrim sh))
      | _, _ => none
    | _ => none
  | _ => none

/-- The errors the per-platform `binary` block pushes (part_006,
lines 127–141). -/
def binaryBlockErrors (vfs : List (String × Json)) (p : String) : List String :=
  match Json.lookupField vfs "binary" with
  | none => []
  | some (Json.obj bfs) =>
    (match Json.lookupField bfs "path", Json.lookupField bfs "sha256" with
    | some (Json.str pa), some (Json.str sh) =>
      if (jsTrim pa = "" : Bool) || (jsTrim sh = "" : Bool) then
        ["variants." ++ p ++ ".binary.path and variants." ++ p ++
          ".binary.sha256 must be non-empty strings"]
      else if !isHex64 (jsTrim sh) then
        ["variants." ++ p ++ ".binary.sha256 must be a 64-character hex SHA256"]
      else []
    | _, _ =>
      ["variants." ++ p ++ ".binary.path and variants." ++ p ++
        ".binary.sha256 must be non-empty strings"])
  | some (Json.arr _) =>
    ["variants." ++ p ++ ".binary.path and variants." ++ p ++
      ".binary.sha256 must be non-empty strings"]
  | some _ => ["variants." ++ p ++ ".binary must be an object"]

/-- The errors one iteration of the variants loop pushes (part_006,
lines 116–147). -/
def variantErrors (raw : Json) (p : String) : List String :=
  match variantLookup raw p with
  | some (Json.obj vfs) =>
    (if (match Json.lookupField vfs "platform" with
         | some (Json.str s) => decide (s = p)
         | _ => false) then []
     else ["variants." ++ p ++ ".platform must be \"" ++ p ++ "\""]) ++
      binaryBlockErrors vfs p
  | some (Json.arr _) => ["variants." ++ p ++ ".platform must be \"" ++ p ++ "\""]
  | _ => ["variants." ++ p ++ " must be an object"]

/-- `hasProvenance` (part_006, lines 149–152). -/
def hasProvenance (raw : Json) : Bool :=
  match Json.get raw "provenance" with
  | some (Json.obj fs) =>
    isNonEmptyString (Json.lookupField fs "source_repository") &&
      isNonEmptyString (Json.lookupField fs "source_revision")
  | _ => false

/-- `hasToolchain` (part_006, lines 154–157). -/
def hasToolchain (raw : Json) : Bool :=
  match Json.get raw "toolchain" with
  | some (Json.obj fs) =>
    isNonEmptyString (Json.lookupField fs "compiler") &&
      isNonEmptyString (Json.lookupField fs "version")
  | _ => false

/-- `isNonEmptyString(toolchainNode!.pico_sdk_version)` (part_006, line 170). -/
def toolchainSdkOk (raw : Json) : Bool :=
  match Json.get raw "toolchain" with
  | some (Json.obj fs) => isNonEmptyString (Json.lookupField fs "pico_sdk_version")
  | _ => false

/-- `hasAbi` (part_006, lines 159–164). -/
def hasAbi (raw : Json) : Bool :=
  match Json.get raw "abi" with
  | some (Json.obj fs) =>
    isNonEmptyString (Json.lookupField fs "optimization_flags") &&
      isNonEmptyString (Json.lookupField fs "float_abi") &&
      isBoolean (Json.lookupField fs "cxx_exceptions") &&
      isBoolean (Json.lookupField fs "cxx_rtti")
  | _ => false

/-- The errors pushed before the variants loop, in push order (part_006,
lines 88–113). -/
def baseFieldErrors (raw : Json) : List String :=
  (if isNonEmptyString (Json.get raw "name") then []
   else ["name must be a non-empty string"]) ++
  (if isNonEmptyString (Json.get raw "version") then []
   else ["version must be a non-empty string"]) ++
  (if isNonEmptyString (Json.get raw "description") then []
   else ["description must be a non-empty string"]) ++
  (if isNonEmptyString (Json.get raw "license") then []
   else ["license must be a non-empty string"]) ++
  (if (match Json.get raw "package_format" with
       | some (Json.str s) => decide (s = "2.0")
       | _ => false) then []
   else ["package_format must be \"2.0\""]) ++
  (if (tierOf raw).isSome then []
   else ["distribution_tier must be \"source\" or \"binary-only\""]) ++
  (match platformsParsed raw with
   | none => ["platforms must be a non-empty string array"]
   | some ps => if ps.isEmpty then ["platforms must be a non-empty string array"] else []) ++
  (if (match Json.get raw "variants" with
       | some (Json.obj _) => true
       | some (Json.arr _) => true
       | _ => false) then []
   else ["variants must be an object"]) ++
  (match platformsParsed raw with
   | none => []
   | some ps =>
     if (jsSetDedup (ps.filter isPlatform)).length ≠ ps.length then
       ["platforms may only contain \"rp2040\" and \"rp2350\""]
     else [])

/-- The extra errors of the binary-only tier (part_006, lines 166–178), in
push order. -/
def tierErrors (raw : Json) : List String :=
  match tierOf raw with
  | some "binary-only" =>
    (if hasProvenance raw then []
     else ["provenance.source_repository and provenance.source_revision are required for distribution_tier \"binary-only\""]) ++
    (if hasToolchain raw then
        (if toolchainSdkOk raw then []
         else ["toolchain.pico_sdk_version is required for distribution_tier \"binary-only\""])
      else ["toolchain.compiler and toolchain.version are required for distribution_tier \"binary-only\""]) ++
    (if hasAbi raw then []
     else ["abi.optimization_flags, abi.float_abi, abi.cxx_exceptions, and abi.cxx_rtti are required for distribution_tier \"binary-only\""]) ++
    (normalizedPlatforms raw).flatMap (fun p =>
      if (validatedBinary raw p).isSome then []
      else ["variants." ++ p ++ ".binary is required for distribution_tier \"binary-only\""])
  | _ => []

/-- The recommendations of the source tier (part_006, lines 179–183). -/
def tierWarnings (raw : Json) : List String :=
  match tierOf raw with
  | some "source" =>
    (if hasProvenance raw then []
     else ["Recommended for source tier: provenance.source_repository and provenance.source_revision"]) ++
    (if hasToolchain raw then []
     else ["Recommended for source tier: toolchain.compiler and toolchain.version"]) ++
    (if hasAbi raw then []
     else ["Recommended for source tier: abi.optimization_flags, abi.float_abi, abi.cxx_exceptions, and abi.cxx_rtti"])
  | _ => []

/-- Every error `validateManifestV2` accumulates, in push order; the function
throws `new Error(errors.join(String.fromCharCode(10) + " - "))` exactly when
this list is non-empty. -/
def allManifestErrors (raw : Json) : List String :=
  baseFieldErrors raw ++
    (normalizedPlatforms raw).flatMap (fun p => variantErrors raw p) ++
    tierErrors raw

/-- One validated variant (part_006, lines 17–20 and 143–146). -/
structure ManifestVariant where
  platform : String
  binary : Option (String × String) := none
deriving DecidableEq, Repr

/-- The normalized manifest `validateManifestV2` returns (part_006,
lines 40–47 and 189–219); `provenance` is (repository, revision), `toolchain`
is (compiler, version, pico_sdk_version), `abi` is (optimization_flags,
float_abi, cxx_exceptions, cxx_rtti). -/
structure ManifestV2 where
  name : String
  version : String
  description : String
  license : String
  distribution_tier : String
  platforms : List String
  variants : List (String × ManifestVariant)
  provenance : Option (String × String) := none
  toolchain : Option (String × String × Option String) := none
  abi : Option (String × String × Bool × Bool) := none
deriving DecidableEq, Repr

/-- `ManifestValidationResult` (part_006, lines 49–52). -/
structure ManifestValidationResult where
  manifest : ManifestV2
  warnings : List String
deriving DecidableEq, Repr

/-- A validated top-level string field, trimmed. -/
def strField (raw : Json) (k : String) : String :=
  match Json.get raw k with
  | some (Json.str s) => jsTrim s
  | _ => ""

/-- The trimmed string content of a field known to be a non-empty string. -/
def trimmedStrOf (v : Option Json) : String :=
  match v with
  | some (Json.str s) => jsTrim s
  | _ => ""

/-- `validatedVariants` (part_006, lines 115–147): one entry per normalized
platform whose variant node is object-typed. -/
def validatedVariantsOf (raw : Json) : List (String × ManifestVariant) :=
  (normalizedPlatforms raw).filterMap (fun p =>
    match variantLookup raw p with
    | some (Json.obj _) => some (p, ⟨p, validatedBinary raw p⟩)
    | some (Json.arr _) => some (p, ⟨p, none⟩)
    | _ => none)

/-- The `provenance` record of the result (part_006, lines 198–203). -/
def provenanceOf (raw : Json) : Option (String × String) :=
  if hasProvenance raw then
    match Json.get raw "provenance" with
    | some (Json.obj fs) =>
      some (trimmedStrOf (Json.lookupField fs "source_repository"),
        trimmedStrOf (Json.lookupField fs "source_revision"))
    | _ => none
  else none

/-- The `toolchain` record of the result (part_006, lines 204–210). -/
def toolchainOf (raw : Json) : Option (String × String × Option String) :=
  if hasToolchain raw then
    match Json.get raw "toolchain" with
    | some (Json.obj fs) =>
      some (trimmedStrOf (Json.lookupField fs "compiler"),
        trimmedStrOf (Json.lookupField fs "version"),
        if isNonEmptyString (Json.lookupField fs "pico_sdk_version") then
          some (trimmedStrOf (Json.lookupField fs "pico_sdk_version"))
        else none)
    | _ => none
  else none

/-- The `abi` record of the result (part_006, lines 211–218). -/
def abiOf (raw : Json) : Option (String × String × Bool × Bool) :=
  if hasAbi raw then
    match Json.get raw "abi" with
    | some (Json.obj fs) =>
      some (trimmedStrOf (Json.lookupField fs "optimization_flags"),
        trimmedStrOf (Json.lookupField fs "float_abi"),
        (match Json.lookupField fs "cxx_exceptions" with
         | some (Json.bool b) => b
         | _ => false),
        (match Json.lookupField fs "cxx_rtti" with
         | some (Json.bool b) => b
         | _ => false))
    | _ => none
  else none

/-- `validateManifestV2` (part_006, lines 75–222): the accumulated error list
when non-empty (the source throws their join), else the normalized manifest
and the source-tier warnings. -/
def validateManifestV2 (raw : Json) : Except (List String) ManifestValidationResult :=
  if allManifestErrors raw ≠ [] then Except.error (allManifestErrors raw)
  else Except.ok
    { manifest :=
        { name := strField raw "name"
          version := strField raw "version"
          description := strField raw "description"
          license := strField raw "license"
          distribution_tier := (tierOf raw).getD ""
          platforms := normalizedPlatforms raw
          variants := validatedVariantsOf raw
          provenance := provenanceOf raw
          toolchain := toolchainOf raw
          abi := abiOf raw }
      warnings := tierWarnings raw }

theorem length_filter_eq_imp {α : Type} (p : α → Bool) (l : List α)
    (h : (l.filter p).length = l.length) : ∀ a ∈ l, p a = true := by
  induction l with
  | nil => intro a ha; simp at ha
  | cons a l ih =>
    rw [List.filter_cons] at h
    cases hpa : p a with
    | true =>
      rw [hpa] at h
      simp only [if_true, List.length_cons] at h
      intro b hb
      rcases List.mem_cons.mp hb with hb' | hb'
      · subst hb'; exact hpa
      · exact ih (by omega) b hb'
    | false =>
      rw [hpa] at h
      simp only [Bool.false_eq_true, if_false, List.length_cons] at h
      have := List.length_filter_le p l
      omega

theorem length_filter_lt_of_mem_false {α : Type} (p : α → Bool) (l : List α)
    (x : α) (hx : x ∈ l) (hp : p x = false) :
    (l.filter p).length < l.length := by
  induction l with
  | nil => simp at hx
  | cons a l ih =>
    rw [List.filter_cons]
    rcases List.mem_cons.mp hx with hx' | hx'
    · subst hx'
      rw [hp]
      simp only [Bool.false_eq_true, if_false, List.length_cons]
      have := List.length_filter_le p l
      omega
    · cases hpa : p a with
      | true =>
        simp only [if_true, List.length_cons]
        exact Nat.succ_lt_succ (ih hx')
      | false =>
        simp only [Bool.false_eq_true, if_false, List.length_cons]
        exact Nat.lt_succ_of_lt (ih hx')

theorem jsSetDedupAux_length_le (l : List String) :
    ∀ seen : List String, (jsSetDedupAux seen l).length ≤ l.length := by
  induction l with
  | nil => intro seen; simp [jsSetDedupAux]
  | cons x rest ih =>
    intro seen
    rw [jsSetDedupAux]
    by_cases hx : x ∈ seen
    · rw [if_pos hx]
      exact Nat.le_succ_of_le (ih seen)
    · rw [if_neg hx]
      simpa using Nat.succ_le_succ (ih (x :: seen))

theorem jsSetDedupAux_lt_of_seen (l : List String) :
    ∀ (seen : List String) (x : String), x ∈ seen → x ∈ l →
      (jsSetDedupAux seen l).length < l.length := by
  induction l with
  | nil => intro seen x _ hl; simp at hl
  | cons y rest ih =>
    intro seen x hseen hl
    rw [jsSetDedupAux]
    by_cases hy : y ∈ seen
    · rw [if_pos hy]
      exact Nat.lt_succ_of_le (jsSetDedupAux_length_le rest seen)
    · rw [if_neg hy]
      rcases List.mem_cons.mp hl with hx' | hx'
      · exact absurd hseen (hx' ▸ hy)
      · simpa using Nat.succ_lt_succ (ih (y :: seen) x (List.mem_cons_of_mem y hseen) hx')

theorem jsSetDedupAux_lt_of_not_nodup (l : List String) :
    ∀ seen : List String, ¬l.Nodup → (jsSetDedupAux seen l).length < l.length := by
  induction l with
  | nil => intro seen h; exact absurd List.nodup_nil h
  | cons y rest ih =>
    intro seen h
    rw [jsSetDedupAux]
    by_cases hy : y ∈ seen
    · rw [if_pos hy]
      exact Nat.lt_succ_of_le (jsSetDedupAux_length_le rest seen)
    · rw [if_neg hy]
      rw [List.nodup_cons] at h
      push_neg at h
      by_cases hmem : y ∈ rest
      · simpa using Nat.succ_lt_succ
          (jsSetDedupAux_lt_of_seen rest (y :: seen) y (List.mem_cons_self y seen) hmem)
      · simpa using Nat.succ_lt_succ (ih (y :: seen) (h hmem))

theorem jsSetDedupAux_eq_self (l : List String) :
    ∀ seen : List String, l.Nodup → (∀ x ∈ l, x ∉ seen) → jsSetDedupAux seen l = l := by
  induction l with
  | nil => intro seen _ _; rfl
  | cons y rest ih =>
    intro seen hnd hdis
    rw [jsSetDedupAux, if_neg (hdis y (List.mem_cons_self y rest))]
    rw [List.nodup_cons] at hnd
    congr 1
    refine ih (y :: seen) hnd.2 ?_
    intro x hx
    rw [List.mem_cons]
    push_neg
    exact ⟨fun he => hnd.1 (he ▸ hx), hdis x (List.mem_cons_of_mem y hx)⟩

theorem jsSetDedup_nodup_eq_self (l : List String) (h : l.Nodup) : jsSetDedup l = l :=
  jsSetDedupAux_eq_self l [] h (fun x _ => List.not_mem_nil x)

/-- The error pushed when filtering+deduplication changes the platform
count (part_006, lines 111–113). -/
def dupPlatformsMsg : String := "platforms may only contain \"rp2040\" and \"rp2350\""

theorem platformsLenMismatch_fatal (raw : Json) (ps : List String)
    (hps : platformsParsed raw = some ps)
    (hne : (jsSetDedup (ps.filter isPlatform)).length ≠ ps.length) :
    validateManifestV2 raw = Except.error (allManifestErrors raw) ∧
      dupPlatformsMsg ∈ allManifestErrors raw := by
  have hmem : dupPlatformsMsg ∈ baseFieldErrors raw := by
    unfold baseFieldErrors
    rw [hps]
    simp only [List.mem_append]
    refine Or.inr ?_
    rw [if_pos hne]
    exact List.mem_singleton_self _
  have hmemAll : dupPlatformsMsg ∈ allManifestErrors raw :=
    List.mem_append_left _ (List.mem_append_left _ hmem)
  have hnenil : allManifestErrors raw ≠ [] := List.ne_nil_of_mem hmemAll
  constructor
  · unfold validateManifestV2
    rw [if_pos hnenil]
  · exact hmemAll

/-- C7 counterexample to "duplicates are deduplicated without failing": a
manifest that is valid apart from listing `rp2040` twice is rejected with the
platforms error. -/
def hex64a : String := ⟨List.replicate 64 'a'⟩

def c7Manifest : Json := Json.obj [
  ("name", Json.str "lib"), ("version", Json.str "1.0.0"),
  ("description", Json.str "d"), ("license", Json.str "MIT"),
  ("package_format", Json.str "2.0"),
  ("distribution_tier", Json.str "binary-only"),
  ("platforms", Json.arr [Json.str "rp2040", Json.str "rp2040"]),
  ("variants", Json.obj [("rp2040", Json.obj [
    ("platform", Json.str "rp2040"),
    ("binary", Json.obj [("path", Json.str "bin/lib.uf2"),
      ("sha256", Json.str hex64a)])])]),
  ("provenance", Json.obj [("source_repository", Json.str "https://r"),
    ("source_revision", Json.str "abc")]),
  ("toolchain", Json.obj [("compiler", Json.str "gcc"),
    ("version", Json.str "13"), ("pico_sdk_version", Json.str "2.0.0")]),
  ("abi", Json.obj [("optimization_flags", Json.str "-O2"),
    ("float_abi", Json.str "hard"), ("cxx_exceptions", Json.bool false),
    ("cxx_rtti", Json.bool false)])]

theorem c7_counterexample :
    validateManifestV2 c7Manifest = Except.error [dupPlatformsMsg] := rfl

/-- C7 (amended): a successfully validated manifest has a non-empty
`platforms` array of recognized, duplicate-free entries, kept verbatim in the
normalized manifest; an unrecognized entry is a fatal error with the
platforms message — and so is a duplicate entry (duplicates are NOT
tolerated: the dedup-length comparison turns them into the same fatal
error). -/
theorem validateManifestV2_platforms :
    (∀ (raw : Json) (res : ManifestValidationResult),
        validateManifestV2 raw = Except.ok res →
        ∃ ps, platformsParsed raw = some ps ∧ ps ≠ [] ∧
          (∀ x ∈ ps, isPlatform x = true) ∧ ps.Nodup ∧
          res.manifest.platforms = ps)
  ∧ (∀ (raw : Json) (ps : List String) (x : String),
        platformsParsed raw = some ps → x ∈ ps → isPlatform x = false →
        validateManifestV2 raw = Except.error (allManifestErrors raw) ∧
          dupPlatformsMsg ∈ allManifestErrors raw)
  ∧ (∀ (raw : Json) (ps : List String),
        platformsParsed raw = some ps → ¬ps.Nodup →
        validateManifestV2 raw = Except.error (allManifestErrors raw) ∧
          dupPlatformsMsg ∈ allManifestErrors raw) := by
  refine ⟨?_, ?_, ?_⟩
  · intro raw res hok
    unfold validateManifestV2 at hok
    by_cases herr : allManifestErrors raw = []
    · rw [if_neg (by simp [herr])] at hok
      have hsplit := herr
      unfold allManifestErrors at hsplit
      rcases List.append_eq_nil.mp hsplit with ⟨hsplit1, _⟩
      rcases List.append_eq_nil.mp hsplit1 with ⟨hbase, _⟩
      unfold baseFieldErrors at hbase
      rcases List.append_eq_nil.mp hbase with ⟨hbase, hdup⟩
      rcases List.append_eq_nil.mp hbase with ⟨hbase, _⟩
      rcases List.append_eq_nil.mp hbase with ⟨hbase, hplat⟩
      cases hps : platformsParsed raw with
      | none => rw [hps] at hplat; exact absurd hplat (by simp)
      | some ps =>
        rw [hps] at hplat hdup
        try simp only [] at hplat hdup
        have hpe : ps.isEmpty = false := by
          by_cases hem : ps.isEmpty
          · rw [if_pos hem] at hplat; exact absurd hplat (by simp)
          · simpa using hem
        have hlen : (jsSetDedup (ps.filter isPlatform)).length = ps.length := by
          by_cases hl : (jsSetDedup (ps.filter isPlatform)).length = ps.length
          · exact hl
          · rw [if_pos hl] at hdup; exact absurd hdup (by simp)
        have hfle := List.length_filter_le isPlatform ps
        have hdle := jsSetDedupAux_length_le (ps.filter isPlatform) []
        unfold jsSetDedup at hlen
        have hfeq : (ps.filter isPlatform).length = ps.length := by omega
        have hall : ∀ x ∈ ps, isPlatform x = true := length_filter_eq_imp _ _ hfeq
        have hfself : ps.filter isPlatform = ps := List.filter_eq_self.mpr hall
        have hnd : ps.Nodup := by
          by_contra hnd
          have := jsSetDedupAux_lt_of_not_nodup ps [] hnd
          rw [hfself] at hlen
          omega
        refine ⟨ps, rfl, by simpa [List.isEmpty_iff] using hpe, hall, hnd, ?_⟩
        have hres : res.manifest.platforms = normalizedPlatforms raw := by
          injection hok with hr
          rw [← hr]
        rw [hres]
        unfold normalizedPlatforms
        rw [hps]
        simp only [Option.getD_some]
        rw [hfself]
        exact jsSetDedup_nodup_eq_self ps hnd
    · rw [if_pos herr] at hok
      exact absurd hok (by simp)
  · intro raw ps x hps hx hp
    have hlt : (ps.filter isPlatform).length < ps.length :=
      length_filter_lt_of_mem_false _ _ x hx hp
    have hdle := jsSetDedupAux_length_le (ps.filter isPlatform) []
    refine platformsLenMismatch_fatal raw ps hps ?_
    unfold jsSetDedup
    omega
  · intro raw ps hps hnd
    by_cases hall : ∀ x ∈ ps, isPlatform x = true
    · have hfself : ps.filter isPlatform = ps := List.filter_eq_self.mpr hall
      refine platformsLenMismatch_fatal raw ps hps ?_
      rw [hfself]
      have := jsSetDedupAux_lt_of_not_nodup ps [] hnd
      unfold jsSetDedup
      omega
    · push_neg at hall
      obtain ⟨x, hx, hp⟩ := hall
      have hlt : (ps.filter isPlatform).length < ps.length :=
        length_filter_lt_of_mem_false _ _ x hx (by simpa using hp)
      have hdle := jsSetDedupAux_length_le (ps.filter isPlatform) []
      refine platformsLenMismatch_fatal raw ps hps ?_
      unfold jsSetDedup
      omega

/-- Witness for `validateManifestV2_platforms`: duplicate `rp2040` entries
are a fatal error. -/
theorem validateManifestV2_platforms_witness :
    validateManifestV2 c7Manifest = Except.error (allManifestErrors c7Manifest) ∧
      dupPlatformsMsg ∈ allManifestErrors c7Manifest :=
  validateManifestV2_platforms.2.2 c7Manifest ["rp2040", "rp2040"] rfl (by decide)

def provMsgB : String :=
  "provenance.source_repository and provenance.source_revision are required for distribution_tier \"binary-only\""

def toolchainReqMsgB : String :=
  "toolchain.compiler and toolchain.version are required for distribution_tier \"binary-only\""

def sdkMsgB : String :=
  "toolchain.pico_sdk_version is required for distribution_tier \"binary-only\""

def abiMsgB : String :=
  "abi.optimization_flags, abi.float_abi, abi.cxx_exceptions, and abi.cxx_rtti are required for distribution_tier \"binary-only\""

def binMsgB (p : String) : String :=
  "variants." ++ p ++ ".binary is required for distribution_tier \"binary-only\""

theorem tierErrors_binary_only (raw : Json) (h : tierOf raw = some "binary-only") :
    tierErrors raw =
      (if hasProvenance raw then [] else [provMsgB]) ++
        (if hasToolchain raw then
            (if toolchainSdkOk raw then [] else [sdkMsgB])
          else [toolchainReqMsgB]) ++
        (if hasAbi raw then [] else [abiMsgB]) ++
        (normalizedPlatforms raw).flatMap (fun p =>
          if (validatedBinary raw p).isSome then [] else [binMsgB p]) := by
  unfold tierErrors
  rw [h]
  rfl

theorem validateManifestV2_error_of_mem (raw : Json) (msg : String)
    (h : msg ∈ allManifestErrors raw) :
    validateManifestV2 raw = Except.error (allManifestErrors raw) := by
  unfold validateManifestV2
  rw [if_pos (List.ne_nil_of_mem h)]

theorem mem_tierErrors_mem_all (raw : Json) (msg : String)
    (h : msg ∈ tierErrors raw) : msg ∈ allManifestErrors raw :=
  List.mem_append_right _ h

theorem tierOf_congr (a b : Json)
    (h : Json.get a "distribution_tier" = Json.get b "distribution_tier") :
    tierOf a = tierOf b := by
  unfold tierOf
  rw [h]

theorem normalizedPlatforms_congr (a b : Json)
    (h : Json.get a "platforms" = Json.get b "platforms") :
    normalizedPlatforms a = normalizedPlatforms b := by
  unfold normalizedPlatforms platformsParsed
  rw [h]

/-- C6: for a manifest object that validates successfully with
`distribution_tier = "binary-only"`, removing `provenance`, removing
`toolchain.pico_sdk_version`, removing `abi`, or removing the `binary` entry
of a declared platform's variant each makes `validateManifestV2` fail, and
the accumulated error list contains the message naming that missing field. -/
theorem validateManifestV2_binary_only_requirements :
    ∀ fs : List (String × Json),
      (validateManifestV2 (Json.obj fs)).isOk = true →
      tierOf (Json.obj fs) = some "binary-only" →
      ((∃ errs, validateManifestV2 (Json.removeField (Json.obj fs) "provenance") =
            Except.error errs ∧ provMsgB ∈ errs)
      ∧ (∀ tfs, Json.get (Json.obj fs) "toolchain" = some (Json.obj tfs) →
          ∃ errs, validateManifestV2 (Json.setField (Json.obj fs) "toolchain"
              (Json.obj (Json.removeKey tfs "pico_sdk_version"))) =
            Except.error errs ∧ sdkMsgB ∈ errs)
      ∧ (∃ errs, validateManifestV2 (Json.removeField (Json.obj fs) "abi") =
            Except.error errs ∧ abiMsgB ∈ errs)
      ∧ (∀ p vnfs vfs, p ∈ normalizedPlatforms (Json.obj fs) →
          Json.get (Json.obj fs) "variants" = some (Json.obj vnfs) →
          Json.lookupField vnfs p = some (Json.obj vfs) →
          ∃ errs, validateManifestV2 (Json.setField (Json.obj fs) "variants"
              (Json.obj (Json.replaceField vnfs p
                (Json.obj (Json.removeKey vfs "binary"))))) =
            Except.error errs ∧ binMsgB p ∈ errs)) := by
  intro fs hok htier
  have herr : allManifestErrors (Json.obj fs) = [] := by
    unfold validateManifestV2 at hok
    by_cases h : allManifestErrors (Json.obj fs) = []
    · exact h
    · rw [if_pos h] at hok
      simp [Except.isOk, Except.toBool] at hok
  have hterZ : tierErrors (Json.obj fs) = [] := by
    have h2 := herr
    unfold allManifestErrors at h2
    exact (List.append_eq_nil.mp h2).2
  rw [tierErrors_binary_only _ htier] at hterZ
  rcases List.append_eq_nil.mp hterZ with ⟨h123, hbins⟩
  rcases List.append_eq_nil.mp h123 with ⟨h12, _⟩
  rcases List.append_eq_nil.mp h12 with ⟨_, htc⟩
  have htcT : hasToolchain (Json.obj fs) = true := by
    by_cases h : hasToolchain (Json.obj fs)
    · exact h
    · rw [if_neg (by simpa using h)] at htc
      exact absurd htc (by simp)
  refine ⟨?_, ?_, ?_, ?_⟩
  · have htier1 : tierOf (Json.removeField (Json.obj fs) "provenance") =
        some "binary-only" := by
      rw [tierOf_congr _ (Json.obj fs) (get_removeField_ne fs _ _ (by decide))]
      exact htier
    have hprov1 : hasProvenance (Json.removeField (Json.obj fs) "provenance") = false := by
      unfold hasProvenance
      rw [get_removeField_self]
    have hmem : provMsgB ∈ tierErrors (Json.removeField (Json.obj fs) "provenance") := by
      rw [tierErrors_binary_only _ htier1]
      refine List.mem_append_left _ (List.mem_append_left _ (List.mem_append_left _ ?_))
      rw [hprov1]
      simp
    exact ⟨_, validateManifestV2_error_of_mem _ _ (mem_tierErrors_mem_all _ _ hmem),
      mem_tierErrors_mem_all _ _ hmem⟩
  · intro tfs htfs
    have hget2 : Json.get (Json.setField (Json.obj fs) "toolchain"
        (Json.obj (Json.removeKey tfs "pico_sdk_version"))) "toolchain" =
        some (Json.obj (Json.removeKey tfs "pico_sdk_version")) :=
      get_setField_self _ _ _ fs rfl
    have htier2 : tierOf (Json.setField (Json.obj fs) "toolchain"
        (Json.obj (Json.removeKey tfs "pico_sdk_version"))) = some "binary-only" := by
      rw [tierOf_congr _ (Json.obj fs) (get_setField_ne _ _ _ _ (by decide))]
      exact htier
    have htc2 : hasToolchain (Json.setField (Json.obj fs) "toolchain"
        (Json.obj (Json.removeKey tfs "pico_sdk_version"))) = true := by
      unfold hasToolchain
      rw [hget2]
      simp only []
      unfold hasToolchain at htcT
      rw [htfs] at htcT
      simp only [] at htcT
      rw [lookupField_removeKey_ne tfs _ _ (by decide),
        lookupField_removeKey_ne tfs _ _ (by decide)]
      exact htcT
    have hsdk2 : toolchainSdkOk (Json.setField (Json.obj fs) "toolchain"
        (Json.obj (Json.removeKey tfs "pico_sdk_version"))) = false := by
      unfold toolchainSdkOk
      rw [hget2]
      simp only []
      rw [lookupField_removeKey_self]
      rfl
    have hmem : sdkMsgB ∈ tierErrors (Json.setField (Json.obj fs) "toolchain"
        (Json.obj (Json.removeKey tfs "pico_sdk_version"))) := by
      rw [tierErrors_binary_only _ htier2]
      refine List.mem_append_left _ (List.mem_append_left _ (List.mem_append_right _ ?_))
      rw [htc2, hsdk2]
      simp
    exact ⟨_, validateManifestV2_error_of_mem _ _ (mem_tierErrors_mem_all _ _ hmem),
      mem_tierErrors_mem_all _ _ hmem⟩
  · have htier3 : tierOf (Json.removeField (Json.obj fs) "abi") = some "binary-only" := by
      rw [tierOf_congr _ (Json.obj fs) (get_removeField_ne fs _ _ (by decide))]
      exact htier
    have habi3 : hasAbi (Json.removeField (Json.obj fs) "abi") = false := by
      unfold hasAbi
      rw [get_removeField_self]
    have hmem : abiMsgB ∈ tierErrors (Json.removeField (Json.obj fs) "abi") := by
      rw [tierErrors_binary_only _ htier3]
      refine List.mem_append_left _ (List.mem_append_right _ ?_)
      rw [habi3]
      simp
    exact ⟨_, validateManifestV2_error_of_mem _ _ (mem_tierErrors_mem_all _ _ hmem),
      mem_tierErrors_mem_all _ _ hmem⟩
  · intro p vnfs vfs hp hvn hvf
    have htier4 : tierOf (Json.setField (Json.obj fs) "variants"
        (Json.obj (Json.replaceField vnfs p (Json.obj (Json.removeKey vfs "binary"))))) =
        some "binary-only" := by
      rw [tierOf_congr _ (Json.obj fs) (get_setField_ne _ _ _ _ (by decide))]
      exact htier
    have hplat4 : normalizedPlatforms (Json.setField (Json.obj fs) "variants"
        (Json.obj (Json.replaceField vnfs p (Json.obj (Json.removeKey vfs "binary"))))) =
        normalizedPlatforms (Json.obj fs) :=
      normalizedPlatforms_congr _ _ (get_setField_ne _ _ _ _ (by decide))
    have hvl4 : variantLookup (Json.setField (Json.obj fs) "variants"
        (Json.obj (Json.replaceField vnfs p (Json.obj (Json.removeKey vfs "binary"))))) p =
        some (Json.obj (Json.removeKey vfs "binary")) := by
      unfold variantLookup
      rw [get_setField_self _ _ _ fs rfl]
      simp only [Json.get]
      exact lookupField_replaceField_self vnfs p _
    have hbin4 : validatedBinary (Json.setField (Json.obj fs) "variants"
        (Json.obj (Json.replaceField vnfs p (Json.obj (Json.removeKey vfs "binary"))))) p =
        none := by
      unfold validatedBinary
      rw [hvl4]
      simp only []
      rw [lookupField_removeKey_self]
    have hmem : binMsgB p ∈ tierErrors (Json.setField (Json.obj fs) "variants"
        (Json.obj (Json.replaceField vnfs p (Json.obj (Json.removeKey vfs "binary"))))) := by
      rw [tierErrors_binary_only _ htier4]
      refine List.mem_append_right _ ?_
      rw [hplat4]
      refine List.mem_flatMap.mpr ⟨p, hp, ?_⟩
      rw [hbin4]
      simp
    exact ⟨_, validateManifestV2_error_of_mem _ _ (mem_tierErrors_mem_all _ _ hmem),
      mem_tierErrors_mem_all _ _ hmem⟩

def c6Fields : List (String × Json) := [
  ("name", Json.str "lib"), ("version", Json.str "1.0.0"),
  ("description", Json.str "d"), ("license", Json.str "MIT"),
  ("package_format", Json.str "2.0"),
  ("distribution_tier", Json.str "binary-only"),
  ("platforms", Json.arr [Json.str "rp2040"]),
  ("variants", Json.obj [("rp2040", Json.obj [
    ("platform", Json.str "rp2040"),
    ("binary", Json.obj [("path", Json.str "bin/lib.uf2"),
      ("sha256", Json.str hex64a)])])]),
  ("provenance", Json.obj [("source_repository", Json.str "https://r"),
    ("source_revision", Json.str "abc")]),
  ("toolchain", Json.obj [("compiler", Json.str "gcc"),
    ("version", Json.str "13"), ("pico_sdk_version", Json.str "2.0.0")]),
  ("abi", Json.obj [("optimization_flags", Json.str "-O2"),
    ("float_abi", Json.str "hard"), ("cxx_exceptions", Json.bool false),
    ("cxx_rtti", Json.bool false)])]

/-- Witness for `validateManifestV2_binary_only_requirements`: a concrete
valid binary-only manifest loses validation when `provenance` is removed. -/
theorem validateManifestV2_binary_only_requirements_witness :
    ∃ errs, validateManifestV2 (Json.removeField (Json.obj c6Fields) "provenance") =
      Except.error errs ∧ provMsgB ∈ errs :=
  (validateManifestV2_binary_only_requirements c6Fields rfl rfl).1

/-- How one invocation of `installCommand` ends: a normal return, a
`process.exit(code)`, or a propagating exception. -/
inductive ExitKind where
  | normal : ExitKind
  | exited : Nat → ExitKind
  | threw : String → ExitKind
deriving DecidableEq, Repr

/-- Node semantics of `try { ... } finally { ... }`: the `finally` block runs
on normal completion and on an exception unwinding through it, but
`process.exit()` terminates the process immediately and the `finally` block
never executes. -/
def finallyRuns : ExitKind → Bool
  | ExitKind.exited _ => false
  | _ => true

/-- The filesystem facts `installCommand` (part_004, lines 21–154) probes, in
the order it probes them. -/
structure InstallWorld where
  packageFileExists : Bool
  extractOk : Bool
  hasMetadata : Bool
  projectDirExists : Bool
  verificationOk : Bool

/-- The `try` body of `installCommand` (part_004, lines 38–147): extraction,
the `picopak.json` check (exit 1 at line 48), list mode (early return), the
project-directory check (exit 1 at line 79), copy, and the installation
verification (exit 1 at line 145). -/
def installBody (listMode : Bool) (w : InstallWorld) : ExitKind :=
  if !w.extractOk then ExitKind.threw "extract failed"
  else if !w.hasMetadata then ExitKind.exited 1
  else if listMode then ExitKind.normal
  else if !w.projectDirExists then ExitKind.exited 1
  else if w.verificationOk then ExitKind.normal
  else ExitKind.exited 1

/-- `installCommand` (part_004, lines 21–154).  The two early exits precede
the creation of `tempDir`; afterwards the `try`/`finally` wraps the body, and
the second component records whether the temp directory is still on disk
when the command ends (the `finally` cleanup at lines 148–153 removes it,
but only when it runs). -/
def installCommand (packageFile : String) (listMode : Bool) (w : InstallWorld) :
    ExitKind × Bool :=
  if !w.packageFileExists then (ExitKind.exited 1, false)
  else if !jsEndsWith packageFile ".picopak" then (ExitKind.exited 1, false)
  else
    let outcome := installBody listMode w
    (outcome, !finallyRuns outcome)

/-- C9 (code bug): the spec promises the temp extraction directory is removed
on every exit path, but the three in-`try` failure paths end with
`process.exit(1)`, which skips the `finally` cleanup — a missing
`picopak.json`, a missing project directory, and a failed installation
verification each leave the temp directory on disk.  Exceptions and normal
completion do run the cleanup. -/
theorem installCommand_tempdir_leak :
    (∀ (packageFile : String) (listMode : Bool) (w : InstallWorld),
        w.packageFileExists = true → jsEndsWith packageFile ".picopak" = true →
        w.extractOk = true → w.hasMetadata = false →
        installCommand packageFile listMode w = (ExitKind.exited 1, true))
  ∧ (∀ (packageFile : String) (w : InstallWorld),
        w.packageFileExists = true → jsEndsWith packageFile ".picopak" = true →
        w.extractOk = true → w.hasMetadata = true → w.projectDirExists = false →
        installCommand packageFile false w = (ExitKind.exited 1, true))
  ∧ (∀ (packageFile : String) (w : InstallWorld),
        w.packageFileExists = true → jsEndsWith packageFile ".picopak" = true →
        w.extractOk = true → w.hasMetadata = true → w.projectDirExists = true →
        w.verificationOk = false →
        installCommand packageFile false w = (ExitKind.exited 1, true))
  ∧ (∀ (packageFile : String) (listMode : Bool) (w : InstallWorld),
        w.packageFileExists = true → jsEndsWith packageFile ".picopak" = true →
        w.extractOk = false →
        installCommand packageFile listMode w = (ExitKind.threw "extract failed", false))
  ∧ (∀ (packageFile : String) (w : InstallWorld),
        w.packageFileExists = true → jsEndsWith packageFile ".picopak" = true →
        w.extractOk = true → w.hasMetadata = true → w.projectDirExists = true →
        w.verificationOk = true →
        installCommand packageFile false w = (ExitKind.normal, false)) := by
  refine ⟨?_, ?_, ?_, ?_, ?_⟩
  · intro packageFile listMode w h1 h2 h3 h4
    simp [installCommand, installBody, finallyRuns, h1, h2, h3, h4]
  · intro packageFile w h1 h2 h3 h4 h5
    simp [installCommand, installBody, finallyRuns, h1, h2, h3, h4, h5]
  · intro packageFile w h1 h2 h3 h4 h5 h6
    simp [installCommand, installBody, finallyRuns, h1, h2, h3, h4, h5, h6]
  · intro packageFile listMode w h1 h2 h3
    simp [installCommand, installBody, finallyRuns, h1, h2, h3]
  · intro packageFile w h1 h2 h3 h4 h5 h6
    simp [installCommand, installBody, finallyRuns, h1, h2, h3, h4, h5, h6]

/-- Witness for `installCommand_tempdir_leak`: an archive without
`picopak.json` exits with code 1 and leaves the temp directory behind. -/
theorem installCommand_tempdir_leak_witness :
    installCommand "FastLED-3.10.3-rp2040.picopak" false
        { packageFileExists := true, extractOk := true, hasMetadata := false,
          projectDirExists := true, verificationOk := true } =
      (ExitKind.exited 1, true) :=
  installCommand_tempdir_leak.1 "FastLED-3.10.3-rp2040.picopak" false
    { packageFileExists := true, extractOk := true, hasMetadata := false,
      projectDirExists := true, verificationOk := true }
    rfl rfl rfl rfl

/-! ## JavaScript numbers (claims C4, C5) -/

/-- A JavaScript number that `Number(string)` can produce on a non-NaN
parse: an exact rational, or one of the two infinities (`NaN` is `none` at
the use sites).  Stated deviations from IEEE-754 doubles: finite values are
kept as exact rationals (the 53-bit rounding of over-long literals is not
modelled), a parse overflows to the infinities at magnitude `2 ^ 1024` and
underflows to `0` below `2 ^ (-1075)`, and `-0` is collapsed to `0` — which
`===` and the sign of a difference cannot distinguish anyway. -/
inductive JsNum where
  | finite : ℚ → JsNum
  | posInf : JsNum
  | negInf : JsNum
deriving DecidableEq, Repr

namespace JsNum

/-- Subtraction as the comparator uses it (written on the
numerator/denominator representation via `mkRat`, so the comparator's value
on concrete versions reduces definitionally; `ratSub_eq` identifies it with
`p - q`).  The code only subtracts two values its `!==` guard found
distinct, so `∞ - ∞` (NaN in JS) never arises; it is mapped to `0`. -/
def sub : JsNum → JsNum → JsNum
  | finite p, finite q => finite (mkRat (p.num * (q.den : ℤ) - q.num * (p.den : ℤ)) (p.den * q.den))
  | posInf, posInf => finite 0
  | negInf, negInf => finite 0
  | posInf, _ => posInf
  | negInf, _ => negInf
  | finite _, posInf => negInf
  | finite _, negInf => posInf

/-- Negation. -/
def neg : JsNum → JsNum
  | finite q => finite (-q)
  | posInf => negInf
  | negInf => posInf

/-- The sign a JS caller observes of a comparator result: −1, 0 or 1. -/
def sgn : JsNum → Int
  | finite q => if q < 0 then -1 else if 0 < q then 1 else 0
  | posInf => 1
  | negInf => -1

/-- Strict value order on JS numbers. -/
def blt : JsNum → JsNum → Bool
  | finite p, finite q => decide (p < q)
  | negInf, finite _ => true
  | negInf, posInf => true
  | finite _, posInf => true
  | _, _ => false

end JsNum

/-- The cross-multiplied `mkRat` inside `JsNum.sub` is ordinary rational
subtraction. -/
theorem mkRat_cross_sub (p q : ℚ) :
    mkRat (p.num * (q.den : ℤ) - q.num * (p.den : ℤ)) (p.den * q.den) = p - q := by
  have hp : (p.den : ℚ) ≠ 0 := Nat.cast_ne_zero.mpr p.den_nz
  have hq : (q.den : ℚ) ≠ 0 := Nat.cast_ne_zero.mpr q.den_nz
  conv_rhs => rw [← Rat.num_div_den p, ← Rat.num_div_den q]
  rw [div_sub_div _ _ hp hq, Rat.mkRat_eq_div]
  push_cast
  ring_nf

theorem JsNum.sgn_neg (x : JsNum) : x.neg.sgn = -x.sgn := by
  cases x with
  | finite q =>
    simp only [JsNum.neg, JsNum.sgn]
    split_ifs <;> (try norm_num) <;> linarith
  | posInf => rfl
  | negInf => rfl

theorem JsNum.sgn_vals (x : JsNum) : x.sgn = -1 ∨ x.sgn = 0 ∨ x.sgn = 1 := by
  cases x with
  | finite q =>
    simp only [JsNum.sgn]
    split_ifs <;> simp
  | posInf => simp [JsNum.sgn]
  | negInf => simp [JsNum.sgn]

theorem JsNum.sub_flip (x y : JsNum) : y.sub x = (x.sub y).neg := by
  cases x <;> cases y <;> simp [JsNum.sub, JsNum.neg, mkRat_cross_sub]

theorem JsNum.sub_sgn_neg_iff (x y : JsNum) (h : x ≠ y) :
    ((x.sub y).sgn = -1 ↔ x.blt y = true) := by
  cases x with
  | finite p =>
    cases y with
    | finite q =>
      simp only [JsNum.sub, JsNum.sgn, JsNum.blt, decide_eq_true_eq,
        mkRat_cross_sub]
      constructor
      · intro hs
        by_cases hlt : p - q < 0
        · linarith
        · rw [if_neg hlt] at hs
          split_ifs at hs <;> omega
      · intro hlt
        rw [if_pos (by linarith : p - q < 0)]
    | posInf => simp [JsNum.sub, JsNum.sgn, JsNum.blt]
    | negInf => simp [JsNum.sub, JsNum.sgn, JsNum.blt]
  | posInf => cases y <;> simp [JsNum.sub, JsNum.sgn, JsNum.blt]
  | negInf => cases y <;> simp [JsNum.sub, JsNum.sgn, JsNum.blt]

theorem JsNum.sub_sgn_ne_zero (x y : JsNum) (h : x ≠ y) : (x.sub y).sgn ≠ 0 := by
  cases x with
  | finite p =>
    cases y with
    | finite q =>
      have hpq : p ≠ q := fun he => h (by rw [he])
      simp only [JsNum.sub, JsNum.sgn, mkRat_cross_sub]
      split_ifs with h1 h2
      · simp
      · simp
      · exfalso
        exact hpq (by linarith)
    | posInf => simp [JsNum.sub, JsNum.sgn]
    | negInf => simp [JsNum.sub, JsNum.sgn]
  | posInf =>
    cases y with
    | finite q => simp [JsNum.sub, JsNum.sgn]
    | posInf => exact absurd rfl h
    | negInf => simp [JsNum.sub, JsNum.sgn]
  | negInf =>
    cases y with
    | finite q => simp [JsNum.sub, JsNum.sgn]
    | posInf => simp [JsNum.sub, JsNum.sgn]
    | negInf => exact absurd rfl h

theorem JsNum.blt_trans (x y z : JsNum) (h1 : x.blt y = true) (h2 : y.blt z = true) :
    x.blt z = true := by
  cases x <;> cases y <;> cases z <;>
      simp only [JsNum.blt, decide_eq_true_eq] at h1 h2 ⊢ <;>
    first
      | trivial
      | exact lt_trans h1 h2

theorem JsNum.ne_of_blt (x y : JsNum) (h : x.blt y = true) : x ≠ y := by
  cases x with
  | finite p =>
    cases y with
    | finite q =>
      simp only [JsNum.blt, decide_eq_true_eq] at h
      intro he
      injection he with he2
      exact absurd he2 (ne_of_lt h)
    | posInf => simp
    | negInf => simp [JsNum.blt] at h
  | posInf => cases y <;> simp [JsNum.blt] at h
  | negInf =>
    cases y with
    | finite q => simp
    | posInf => simp
    | negInf => simp [JsNum.blt] at h

theorem JsNum.blt_total_of_ne (x y : JsNum) (h : x ≠ y) :
    x.blt y = true ∨ y.blt x = true := by
  cases x with
  | finite p =>
    cases y with
    | finite q =>
      have hpq : p ≠ q := fun he => h (by rw [he])
      simp only [JsNum.blt, decide_eq_true_eq]
      rcases lt_trichotomy p q with hl | hl | hl
      · exact Or.inl hl
      · exact absurd hl hpq
      · exact Or.inr hl
    | posInf => simp [JsNum.blt]
    | negInf => simp [JsNum.blt]
  | posInf =>
    cases y with
    | finite q => simp [JsNum.blt]
    | posInf => exact absurd rfl h
    | negInf => simp [JsNum.blt]
  | negInf =>
    cases y with
    | finite q => simp [JsNum.blt]
    | posInf => simp [JsNum.blt]
    | negInf => exact absurd rfl h

/-- `2 ^ 1024` as a rational: the magnitude at which a parsed literal
overflows to the infinities. -/
def jsOverflowBound : ℚ := 179769313486231590772930519078902473361797697894230657273430081157732675805500963132708477322407536021120113879871393357658789768814416622492847430639474124377767893424865485276302219601246094119453082952085005768838150682342462881473913110540827237163350510684586298239947245938479716304835356329624224137216

/-- `2 ^ (-1075)` as a rational: parsed literals strictly below this
magnitude underflow to `0`. -/
def jsUnderflowBound : ℚ :=
  mkRat 1 404804506614621236704990693437834614099113299528284236713802716054860679135990693783920767402874248990374155728633623822779617474771586953734026799881477019843034848553132722728933815484186432682479535356945490137124014966849385397236206711298319112681620113024717539104666829230461005064372655017292012526615415482186989568

/-- Clamp an exactly-computed finite parse result into the double range
(overflow to the infinities, underflow to zero, `-0` collapsed). -/
def jsClampFinite (q : ℚ) : JsNum :=
  if jsOverflowBound ≤ q then JsNum.posInf
  else if q ≤ -jsOverflowBound then JsNum.negInf
  else if -jsUnderflowBound < q ∧ q < jsUnderflowBound then JsNum.finite 0
  else JsNum.finite q

/-- The value of a decimal digit string. -/
def decDigitsVal (ds : List Char) : ℕ :=
  ds.foldl (fun a c => a * 10 + (c.toNat - 48)) 0

/-- A hexadecimal digit. -/
def isHexDigitChar (c : Char) : Bool :=
  c.isDigit || ('a' ≤ c && c ≤ 'f') || ('A' ≤ c && c ≤ 'F')

/-- An octal digit. -/
def isOctDigitChar (c : Char) : Bool := '0' ≤ c && c ≤ '7'

/-- A binary digit. -/
def isBinDigitChar (c : Char) : Bool := c = '0' || c = '1'

/-- The value of one hexadecimal digit. -/
def hexDigitVal (c : Char) : ℕ :=
  if c.isDigit then c.toNat - 48
  else if 'a' ≤ c ∧ c ≤ 'f' then c.toNat - 87
  else c.toNat - 55

/-- A `0x`/`0o`/`0b` integer literal body: at least one digit of the given
base, nothing else (no sign, no exponent), clamped into double range. -/
def parseRadixDigits (base : ℕ) (isDig : Char → Bool) (digitVal : Char → ℕ)
    (ds : List Char) : Option JsNum :=
  if ds.isEmpty then none
  else if ds.all isDig then
    some (jsClampFinite ((ds.foldl (fun a c => a * base + digitVal c) 0 : ℕ) : ℚ))
  else none

/-- Assemble a decimal literal from its parts: integer digits, fraction
digits, exponent (`eneg` for a negative exponent), `negate` for a leading
minus.  The value is `mantissa · 10 ^ (exponent − #fraction digits)`,
computed exactly and clamped; a decimal-magnitude pre-check keeps the
computation feasible for absurdly large exponents (any value it short-cuts
is beyond the double range anyway). -/
def mkDecValue (negate : Bool) (ip fp : List Char) (expDigits : ℕ)
    (eneg : Bool) : JsNum :=
  let mantDigits := (ip ++ fp).dropWhile (· = '0')
  if mantDigits.isEmpty then JsNum.finite 0
  else
    let m : ℕ := decDigitsVal mantDigits
    let e10 : ℤ := (if eneg then -(expDigits : ℤ) else (expDigits : ℤ)) - (fp.length : ℤ)
    let mag : ℤ := (mantDigits.length : ℤ) + e10
    if mag > 320 then (if negate then JsNum.negInf else JsNum.posInf)
    else if mag < -340 then JsNum.finite 0
    else
      let q0 : ℚ :=
        if 0 ≤ e10 then ((m * 10 ^ e10.toNat : ℕ) : ℚ)
        else mkRat (m : ℤ) (10 ^ (-e10).toNat)
      jsClampFinite (if negate then -q0 else q0)

/-- `StrUnsignedDecimalLiteral` (with `negate` carrying an already-consumed
sign): `Infinity`, or digits with an optional fraction and exponent. -/
def parseDecTail (negate : Bool) (cs : List Char) : Option JsNum :=
  if cs = "Infinity".data then
    some (if negate then JsNum.negInf else JsNum.posInf)
  else
    let ip := cs.takeWhile Char.isDigit
    let rest1 := cs.dropWhile Char.isDigit
    let hasDot := match rest1 with
      | '.' :: _ => true
      | _ => false
    let afterDot := match rest1 with
      | '.' :: r => r
      | _ => rest1
    let fp := if hasDot then afterDot.takeWhile Char.isDigit else []
    let rest2 := if hasDot then afterDot.dropWhile Char.isDigit else rest1
    if ip.isEmpty && fp.isEmpty then none
    else
      match rest2 with
      | [] => some (mkDecValue negate ip fp 0 false)
      | e :: r =>
        if e = 'e' ∨ e = 'E' then
          let signAndRest : Bool × List Char := match r with
            | '+' :: rr => (false, rr)
            | '-' :: rr => (true, rr)
            | _ => (false, r)
          if signAndRest.2.isEmpty || !signAndRest.2.all Char.isDigit then none
          else some (mkDecValue negate ip fp (decDigitsVal signAndRest.2) signAndRest.1)
        else none

/-- `StrDecimalLiteral`: an optional sign, then the unsigned literal. -/
def parseSignedDec (cs : List Char) : Option JsNum :=
  match cs with
  | '+' :: rest => parseDecTail false rest
  | '-' :: rest => parseDecTail true rest
  | _ => parseDecTail false cs

/-- `Number(s)` — the `StringNumericLiteral` grammar: whitespace-trimmed,
empty is `0`, `0x`/`0o`/`0b` integer literals (unsigned), otherwise a signed
decimal literal or `Infinity`; anything else is NaN (`none`). -/
def jsStringToNumber (s : String) : Option JsNum :=
  match (jsTrim s).data with
  | [] => some (JsNum.finite 0)
  | '0' :: c :: rest =>
    if c = 'x' ∨ c = 'X' then parseRadixDigits 16 isHexDigitChar hexDigitVal rest
    else if c = 'o' ∨ c = 'O' then
      parseRadixDigits 8 isOctDigitChar (fun d => d.toNat - 48) rest
    else if c = 'b' ∨ c = 'B' then
      parseRadixDigits 2 isBinDigitChar (fun d => d.toNat - 48) rest
    else parseSignedDec ('0' :: c :: rest)
  | cs => parseSignedDec cs

/-- The result of `parseSemver` (resolver.ts, lines 498–509): three numeric
core components and the dot-separated prerelease identifiers. -/
structure Semver where
  core : List JsNum
  prerelease : List String
deriving DecidableEq

/-- `parseSemver` (resolver.ts, lines 498–509): split on the first `-`
(`split('-', 2)` keeps only the segment before the second hyphen), parse the
dot-separated core with `Number` (NaN → 0), pad to three components. -/
def parseSemver (value : String) : Semver :=
  let normalized := normalizeVersion value
  let (core, prerelease) :=
    match jsSplitOnChar '-' normalized with
    | [] => ("", (none : Option String))
    | [c] => (c, none)
    | c :: p :: _ => (c, some p)
  let coreParts := (jsSplitOnChar '.' core).map jsStringToNumber
  let padded := coreParts ++ List.replicate (3 - coreParts.length) (some (JsNum.finite 0))
  { core := (padded.take 3).map (fun o => o.getD (JsNum.finite 0))
    prerelease :=
      match prerelease with
      | some p => if p = "" then [] else jsSplitOnChar '.' p
      | none => [] }

/-- The `for i < 3` loop of `compareVersions` (lines 455–459): `some d` when
the first differing core component decided the comparison by subtraction,
`none` when the loop fell through. -/
def compareCore : List JsNum → List JsNum → Option JsNum
  | x :: xs, y :: ys => if x ≠ y then some (x.sub y) else compareCore xs ys
  | _, _ => none

/-- One iteration of the prerelease-identifier loop (lines 478–492), for two
present identifiers: `some v` when the iteration returns `v`, `none` when it
falls through to the next identifier.  Both-numeric identifiers compare by
value; exactly one numeric sorts the numeric one first; distinct identifiers
otherwise go to the host collator `collate` (`localeCompare`) — including
equal-valued numerics with distinct spellings. -/
def cmpId (collate : String → String → Int) (aPart bPart : String) : Option JsNum :=
  match jsStringToNumber aPart, jsStringToNumber bPart with
  | some aNum, some bNum =>
    if aNum ≠ bNum then some (aNum.sub bNum)
    else if aPart ≠ bPart then some (JsNum.finite (collate aPart bPart : ℚ))
    else none
  | some _, none => some (JsNum.finite (-1))
  | none, some _ => some (JsNum.finite 1)
  | none, none =>
    if aPart ≠ bPart then some (JsNum.finite (collate aPart bPart : ℚ))
    else none

/-- The prerelease loop of `compareVersions` (lines 468–494): a missing
identifier sorts first, a deciding iteration returns its value, and the loop
ends with `0`. -/
def comparePrerelease (collate : String → String → Int) :
    List String → List String → JsNum
  | [], [] => JsNum.finite 0
  | [], _ :: _ => JsNum.finite (-1)
  | _ :: _, [] => JsNum.finite 1
  | aPart :: as, bPart :: bs =>
    match cmpId collate aPart bPart with
    | some v => v
    | none => comparePrerelease collate as bs

/-- The body of `compareVersions` after parsing (lines 455–494). -/
def compareSemver (collate : String → String → Int) (parsedA parsedB : Semver) : JsNum :=
  match compareCore parsedA.core parsedB.core with
  | some d => d
  | none =>
    if parsedA.prerelease.isEmpty && !parsedB.prerelease.isEmpty then JsNum.finite 1
    else if !parsedA.prerelease.isEmpty && parsedB.prerelease.isEmpty then JsNum.finite (-1)
    else comparePrerelease collate parsedA.prerelease parsedB.prerelease

/-- `compareVersions` (resolver.ts, lines 451–496), parametrized by the host
collator backing `String.prototype.localeCompare`.  Positive sign means `a`
outranks `b`. -/
def compareVersions (collate : String → String → Int) (a b : String) : JsNum :=
  compareSemver collate (parseSemver a) (parseSemver b)

theorem parseSemver_core_length (v : String) : (parseSemver v).core.length = 3 := by
  unfold parseSemver
  cases hs : jsSplitOnChar '-' (normalizeVersion v) with
  | nil => simp; omega
  | cons c rest =>
    cases rest with
    | nil => simp; omega
    | cons p more => simp; omega

/-- What the comparator theory needs of the host collator backing
`String.prototype.localeCompare`: it is antisymmetric in sign, its strict
order is transitive, and it separates distinct identifier strings (ICU ties
require strings differing only in ignorable characters, which version
identifiers do not contain). -/
structure IsCollator (collate : String → String → Int) : Prop where
  anti : ∀ x y, collate x y = -collate y x
  trans_neg : ∀ x y z, collate x y < 0 → collate y z < 0 → collate x z < 0
  eq_of_zero : ∀ x y, collate x y = 0 → x = y

/-- Code-point order is one collator satisfying the interface (the concrete
instantiation used by the witnesses). -/
theorem isCollator_localeCompareInt : IsCollator localeCompareInt := by
  refine ⟨localeCompareInt_anti, ?_, fun x y h => (localeCompareInt_eq_zero_iff x y).mp h⟩
  intro x y z h1 h2
  rw [localeCompareInt_neg_iff] at h1 h2 ⊢
  exact lt_trans h1 h2

theorem collate_self_eq_zero (collate : String → String → Int)
    (H : IsCollator collate) (a : String) : collate a a = 0 := by
  have h := H.anti a a
  omega

theorem cmpId_self (collate : String → String → Int) (a : String) :
    cmpId collate a a = none := by
  unfold cmpId
  cases h : jsStringToNumber a with
  | none => simp
  | some n => simp

theorem cmpId_none_eq (collate : String → String → Int) (a b : String)
    (h : cmpId collate a b = none) : a = b := by
  unfold cmpId at h
  cases hA : jsStringToNumber a <;> cases hB : jsStringToNumber b <;>
    rw [hA, hB] at h <;> try simp only [] at h
  · by_cases hab : a = b
    · exact hab
    · rw [if_pos hab] at h
      exact absurd h (by simp)
  · exact absurd h (by simp)
  · exact absurd h (by simp)
  · rename_i m n
    by_cases hmn : m = n
    · subst hmn
      rw [if_neg (by simp : ¬m ≠ m)] at h
      by_cases hab : a = b
      · exact hab
      · rw [if_pos hab] at h
        exact absurd h (by simp)
    · rw [if_pos hmn] at h
      exact absurd h (by simp)

theorem cmpId_anti (collate : String → String → Int) (H : IsCollator collate)
    (a b : String) : cmpId collate b a = (cmpId collate a b).map JsNum.neg := by
  by_cases hab : a = b
  · subst hab
    rw [cmpId_self]
    rfl
  · unfold cmpId
    cases hA : jsStringToNumber a <;> cases hB : jsStringToNumber b <;>
      simp only []
    · rw [if_pos (Ne.symm hab), if_pos hab]
      simp only [Option.map_some']
      rw [H.anti b a]
      simp [JsNum.neg]
    · norm_num [JsNum.neg]
    · norm_num [JsNum.neg]
    · rename_i m n
      by_cases hmn : m = n
      · subst hmn
        simp only [if_neg (show ¬m ≠ m by simp)]
        rw [if_pos (Ne.symm hab), if_pos hab]
        simp only [Option.map_some']
        rw [H.anti b a]
        simp [JsNum.neg]
      · rw [if_pos (Ne.symm hmn), if_pos hmn]
        simp only [Option.map_some']
        rw [JsNum.sub_flip]

theorem cmpId_some_sgn_ne_zero (collate : String → String → Int)
    (H : IsCollator collate) (a b : String) (v : JsNum)
    (h : cmpId collate a b = some v) : v.sgn ≠ 0 := by
  unfold cmpId at h
  cases hA : jsStringToNumber a <;> cases hB : jsStringToNumber b <;>
    rw [hA, hB] at h <;> try simp only [] at h
  · by_cases hab : a = b
    · subst hab
      rw [if_neg (by simp : ¬a ≠ a)] at h
      exact absurd h (by simp)
    · rw [if_pos hab] at h
      injection h with hv
      subst hv
      simp only [JsNum.sgn]
      split_ifs with h1 h2
      · simp
      · simp
      · exfalso
        have hz : (collate a b : ℚ) = 0 := by linarith
        have : collate a b = 0 := by exact_mod_cast hz
        exact hab (H.eq_of_zero a b this)
  · injection h with hv
    subst hv
    norm_num [JsNum.sgn]
  · injection h with hv
    subst hv
    norm_num [JsNum.sgn]
  · rename_i m n
    by_cases hmn : m = n
    · subst hmn
      rw [if_neg (by simp : ¬m ≠ m)] at h
      by_cases hab : a = b
      · subst hab
        rw [if_neg (by simp : ¬a ≠ a)] at h
        exact absurd h (by simp)
      · rw [if_pos hab] at h
        injection h with hv
        subst hv
        simp only [JsNum.sgn]
        split_ifs with h1 h2
        · simp
        · simp
        · exfalso
          have hz : (collate a b : ℚ) = 0 := by linarith
          have : collate a b = 0 := by exact_mod_cast hz
          exact hab (H.eq_of_zero a b this)
    · rw [if_pos hmn] at h
      injection h with hv
      subst hv
      exact JsNum.sub_sgn_ne_zero m n hmn

theorem JsNum.sgn_finite_neg_iff (q : ℚ) : (JsNum.finite q).sgn = -1 ↔ q < 0 := by
  rcases lt_trichotomy q 0 with h | h | h
  · simp [JsNum.sgn, h]
  · subst h
    norm_num [JsNum.sgn]
  · simp only [JsNum.sgn]
    rw [if_neg (by linarith : ¬q < 0), if_pos h]
    constructor
    · intro hc
      exact absurd hc (by norm_num)
    · intro hc
      linarith

theorem JsNum.sgn_finite_pos_iff (q : ℚ) : (JsNum.finite q).sgn = 1 ↔ 0 < q := by
  rcases lt_trichotomy q 0 with h | h | h
  · simp only [JsNum.sgn]
    rw [if_pos h]
    constructor
    · intro hc
      exact absurd hc (by norm_num)
    · intro hc
      linarith
  · subst h
    norm_num [JsNum.sgn]
  · simp only [JsNum.sgn]
    rw [if_neg (by linarith : ¬q < 0), if_pos h]
    simp [h]

theorem collate_sgn_neg (collate : String → String → Int) (a b : String)
    (h : (JsNum.finite ((collate a b : ℤ) : ℚ)).sgn = -1) : collate a b < 0 := by
  rw [JsNum.sgn_finite_neg_iff] at h
  exact_mod_cast h

theorem collate_sgn_neg_intro (collate : String → String → Int) (a b : String)
    (h : collate a b < 0) : (JsNum.finite ((collate a b : ℤ) : ℚ)).sgn = -1 := by
  rw [JsNum.sgn_finite_neg_iff]
  exact_mod_cast h

theorem cmpId_trans_neg (collate : String → String → Int) (H : IsCollator collate)
    (a b c : String) (u v : JsNum)
    (h1 : cmpId collate a b = some u) (hu : u.sgn = -1)
    (h2 : cmpId collate b c = some v) (hv : v.sgn = -1) :
    ∃ w, cmpId collate a c = some w ∧ w.sgn = -1 := by
  unfold cmpId at h1 h2 ⊢
  cases hA : jsStringToNumber a <;> cases hB : jsStringToNumber b <;>
    cases hC : jsStringToNumber c <;>
      rw [hA, hB] at h1 <;> rw [hB, hC] at h2 <;>
        try simp only [] at h1 h2 ⊢
  case none.none.none =>
    by_cases hab : a = b
    · subst hab
      rw [if_neg (by simp : ¬a ≠ a)] at h1
      exact absurd h1 (by simp)
    · rw [if_pos hab] at h1
      injection h1 with hu1
      subst hu1
      have hcab : collate a b < 0 := collate_sgn_neg collate a b hu
      by_cases hbc : b = c
      · subst hbc
        rw [if_neg (by simp : ¬b ≠ b)] at h2
        exact absurd h2 (by simp)
      · rw [if_pos hbc] at h2
        injection h2 with hv1
        subst hv1
        have hcbc : collate b c < 0 := collate_sgn_neg collate b c hv
        have hcac : collate a c < 0 := H.trans_neg a b c hcab hcbc
        have hane : a ≠ c := by
          intro he
          rw [he, collate_self_eq_zero collate H c] at hcac
          exact absurd hcac (by norm_num)
        refine ⟨JsNum.finite ((collate a c : ℤ) : ℚ), by rw [if_pos hane], ?_⟩
        exact collate_sgn_neg_intro collate a c hcac
  case none.none.some =>
    injection h2 with hv1
    subst hv1
    norm_num [JsNum.sgn] at hv
  case none.some.none =>
    injection h1 with hu1
    subst hu1
    norm_num [JsNum.sgn] at hu
  case none.some.some =>
    injection h1 with hu1
    subst hu1
    norm_num [JsNum.sgn] at hu
  case some.none.none =>
    exact ⟨JsNum.finite (-1), rfl, by norm_num [JsNum.sgn]⟩
  case some.none.some =>
    injection h2 with hv1
    subst hv1
    norm_num [JsNum.sgn] at hv
  case some.some.none =>
    exact ⟨JsNum.finite (-1), rfl, by norm_num [JsNum.sgn]⟩
  case some.some.some =>
    rename_i m n k
    by_cases hmn : m = n
    · subst hmn
      rw [if_neg (by simp : ¬m ≠ m)] at h1
      by_cases hmk : m = k
      · subst hmk
        rw [if_neg (by simp : ¬m ≠ m)] at h2
        by_cases hab : a = b
        · subst hab
          rw [if_neg (by simp : ¬a ≠ a)] at h1
          exact absurd h1 (by simp)
        · rw [if_pos hab] at h1
          injection h1 with hu1
          subst hu1
          have hcab : collate a b < 0 := collate_sgn_neg collate a b hu
          by_cases hbc : b = c
          · subst hbc
            rw [if_neg (by simp : ¬b ≠ b)] at h2
            exact absurd h2 (by simp)
          · rw [if_pos hbc] at h2
            injection h2 with hv1
            subst hv1
            have hcbc : collate b c < 0 := collate_sgn_neg collate b c hv
            have hcac : collate a c < 0 := H.trans_neg a b c hcab hcbc
            have hane : a ≠ c := by
              intro he
              rw [he, collate_self_eq_zero collate H c] at hcac
              exact absurd hcac (by norm_num)
            rw [if_neg (by simp : ¬m ≠ m)]
            refine ⟨JsNum.finite ((collate a c : ℤ) : ℚ), by rw [if_pos hane], ?_⟩
            exact collate_sgn_neg_intro collate a c hcac
      · rw [if_pos hmk] at h2
        injection h2 with hv1
        subst hv1
        exact ⟨JsNum.sub m k, by rw [if_pos hmk], hv⟩
    · rw [if_pos hmn] at h1
      injection h1 with hu1
      subst hu1
      have hbltmn : JsNum.blt m n = true := by
        rw [← JsNum.sub_sgn_neg_iff m n hmn]
        exact hu
      by_cases hnk : n = k
      · subst hnk
        exact ⟨JsNum.sub m n, by rw [if_pos hmn], hu⟩
      · rw [if_pos hnk] at h2
        injection h2 with hv1
        subst hv1
        have hbltnk : JsNum.blt n k = true := by
          rw [← JsNum.sub_sgn_neg_iff n k hnk]
          exact hv
        have hbltmk : JsNum.blt m k = true := JsNum.blt_trans m n k hbltmn hbltnk
        have hmk : m ≠ k := JsNum.ne_of_blt m k hbltmk
        refine ⟨JsNum.sub m k, by rw [if_pos hmk], ?_⟩
        rw [JsNum.sub_sgn_neg_iff m k hmk]
        exact hbltmk

theorem comparePrerelease_self (collate : String → String → Int) (l : List String) :
    comparePrerelease collate l l = JsNum.finite 0 := by
  induction l with
  | nil => rfl
  | cons a l ih =>
    rw [comparePrerelease, cmpId_self]
    exact ih

theorem comparePrerelease_anti (collate : String → String → Int)
    (H : IsCollator collate) (as bs : List String) :
    comparePrerelease collate bs as = (comparePrerelease collate as bs).neg := by
  induction as generalizing bs with
  | nil =>
    cases bs with
    | nil => norm_num [comparePrerelease, JsNum.neg]
    | cons b bs => norm_num [comparePrerelease, JsNum.neg]
  | cons a as ih =>
    cases bs with
    | nil => norm_num [comparePrerelease, JsNum.neg]
    | cons b bs =>
      rw [comparePrerelease, comparePrerelease, cmpId_anti collate H a b]
      cases hc : cmpId collate a b with
      | none => simp only [Option.map_none']; exact ih bs
      | some v => simp only [Option.map_some']

theorem comparePrerelease_sgn_zero_iff (collate : String → String → Int)
    (H : IsCollator collate) (as bs : List String) :
    (comparePrerelease collate as bs).sgn = 0 ↔ as = bs := by
  constructor
  · intro h
    induction as generalizing bs with
    | nil =>
      cases bs with
      | nil => rfl
      | cons b bs => norm_num [comparePrerelease, JsNum.sgn] at h
    | cons a as ih =>
      cases bs with
      | nil => norm_num [comparePrerelease, JsNum.sgn] at h
      | cons b bs =>
        rw [comparePrerelease] at h
        cases hc : cmpId collate a b with
        | some v =>
          rw [hc] at h
          simp only [] at h
          exact absurd h (cmpId_some_sgn_ne_zero collate H a b v hc)
        | none =>
          rw [hc] at h
          simp only [] at h
          rw [cmpId_none_eq collate a b hc]
          rw [ih bs h]
  · intro h
    subst h
    rw [comparePrerelease_self]
    rfl

theorem comparePrerelease_trans_neg (collate : String → String → Int)
    (H : IsCollator collate) (as bs cs : List String)
    (h1 : (comparePrerelease collate as bs).sgn = -1)
    (h2 : (comparePrerelease collate bs cs).sgn = -1) :
    (comparePrerelease collate as cs).sgn = -1 := by
  induction as generalizing bs cs with
  | nil =>
    cases cs with
    | nil =>
      cases bs with
      | nil => norm_num [comparePrerelease, JsNum.sgn] at h1
      | cons b bs => norm_num [comparePrerelease, JsNum.sgn] at h2
    | cons c cs => norm_num [comparePrerelease, JsNum.sgn]
  | cons a as ih =>
    cases bs with
    | nil => norm_num [comparePrerelease, JsNum.sgn] at h1
    | cons b bs =>
      cases cs with
      | nil => norm_num [comparePrerelease, JsNum.sgn] at h2
      | cons c cs =>
        rw [comparePrerelease] at h1 h2 ⊢
        cases hab : cmpId collate a b with
        | some u =>
          rw [hab] at h1
          simp only [] at h1
          cases hbc : cmpId collate b c with
          | some v =>
            rw [hbc] at h2
            simp only [] at h2
            obtain ⟨w, hw, hws⟩ :=
              cmpId_trans_neg collate H a b c u v hab h1 hbc h2
            rw [hw]
            exact hws
          | none =>
            have hbceq : b = c := cmpId_none_eq collate b c hbc
            subst hbceq
            rw [hab]
            exact h1
        | none =>
          have habeq : a = b := cmpId_none_eq collate a b hab
          subst habeq
          rw [hab] at h1
          simp only [] at h1
          cases hac : cmpId collate a c with
          | some v =>
            rw [hac] at h2
            simp only [] at h2 ⊢
            exact h2
          | none =>
            rw [hac] at h2
            simp only [] at h2 ⊢
            exact ih bs cs h1 h2

theorem compareCore_self (l : List JsNum) : compareCore l l = none := by
  induction l with
  | nil => rfl
  | cons x l ih => simp [compareCore, ih]

theorem compareCore_anti (xs ys : List JsNum) :
    compareCore ys xs = (compareCore xs ys).map JsNum.neg := by
  induction xs generalizing ys with
  | nil =>
    cases ys with
    | nil => rfl
    | cons y ys => rfl
  | cons x xs ih =>
    cases ys with
    | nil => rfl
    | cons y ys =>
      simp only [compareCore]
      by_cases hxy : x = y
      · subst hxy
        simp only [if_neg (show ¬x ≠ x by simp)]
        exact ih ys
      · rw [if_pos (Ne.symm hxy), if_pos hxy]
        simp only [Option.map_some']
        rw [JsNum.sub_flip]

theorem compareCore_some_sgn_ne_zero (xs ys : List JsNum) (d : JsNum)
    (h : compareCore xs ys = some d) : d.sgn ≠ 0 := by
  induction xs generalizing ys with
  | nil => cases ys <;> simp [compareCore] at h
  | cons x xs ih =>
    cases ys with
    | nil => simp [compareCore] at h
    | cons y ys =>
      simp only [compareCore] at h
      by_cases hxy : x = y
      · rw [if_neg (by simpa using hxy)] at h
        exact ih ys h
      · rw [if_pos hxy] at h
        injection h with hd
        subst hd
        exact JsNum.sub_sgn_ne_zero x y hxy

theorem compareCore_none_eq (xs ys : List JsNum) (hlen : xs.length = ys.length)
    (h : compareCore xs ys = none) : xs = ys := by
  induction xs generalizing ys with
  | nil =>
    cases ys with
    | nil => rfl
    | cons y ys => simp at hlen
  | cons x xs ih =>
    cases ys with
    | nil => simp at hlen
    | cons y ys =>
      simp only [compareCore] at h
      by_cases hxy : x = y
      · subst hxy
        rw [if_neg (by simp : ¬x ≠ x)] at h
        simp only [List.length_cons, Nat.add_right_cancel_iff] at hlen
        rw [ih ys hlen h]
      · rw [if_pos hxy] at h
        exact absurd h (by simp)

theorem compareCore_trans_neg (xs ys zs : List JsNum) (u v : JsNum)
    (h1 : compareCore xs ys = some u) (hu : u.sgn = -1)
    (h2 : compareCore ys zs = some v) (hv : v.sgn = -1) :
    ∃ w, compareCore xs zs = some w ∧ w.sgn = -1 := by
  induction xs generalizing ys zs with
  | nil => cases ys <;> simp [compareCore] at h1
  | cons x xs ih =>
    cases ys with
    | nil => simp [compareCore] at h1
    | cons y ys =>
      cases zs with
      | nil => simp [compareCore] at h2
      | cons z zs =>
        simp only [compareCore] at h1 h2 ⊢
        by_cases hxy : x = y
        · subst hxy
          rw [if_neg (by simp : ¬x ≠ x)] at h1
          by_cases hyz : x = z
          · subst hyz
            rw [if_neg (by simp : ¬x ≠ x)] at h2 ⊢
            exact ih ys zs h1 h2
          · rw [if_pos hyz] at h2 ⊢
            injection h2 with hv1
            subst hv1
            exact ⟨JsNum.sub x z, rfl, hv⟩
        · rw [if_pos hxy] at h1
          injection h1 with hu1
          subst hu1
          have hbltxy : JsNum.blt x y = true := by
            rw [← JsNum.sub_sgn_neg_iff x y hxy]
            exact hu
          by_cases hyz : y = z
          · subst hyz
            rw [if_pos hxy]
            exact ⟨JsNum.sub x y, rfl, hu⟩
          · rw [if_pos hyz] at h2
            injection h2 with hv1
            subst hv1
            have hbltyz : JsNum.blt y z = true := by
              rw [← JsNum.sub_sgn_neg_iff y z hyz]
              exact hv
            have hbltxz := JsNum.blt_trans x y z hbltxy hbltyz
            have hxz : x ≠ z := JsNum.ne_of_blt x z hbltxz
            refine ⟨JsNum.sub x z, by rw [if_pos hxz], ?_⟩
            rw [JsNum.sub_sgn_neg_iff x z hxz]
            exact hbltxz

theorem compareSemver_anti (collate : String → String → Int) (H : IsCollator collate)
    (A B : Semver) : compareSemver collate B A = (compareSemver collate A B).neg := by
  obtain ⟨ac, ap⟩ := A
  obtain ⟨bc, bp⟩ := B
  unfold compareSemver
  simp only []
  rw [compareCore_anti ac bc]
  cases hcc : compareCore ac bc with
  | some d => simp only [Option.map_some']
  | none =>
    simp only [Option.map_none']
    cases ap with
    | nil =>
      cases bp with
      | nil => norm_num [comparePrerelease, JsNum.neg]
      | cons b bs => norm_num [JsNum.neg]
    | cons a as =>
      cases bp with
      | nil => norm_num [JsNum.neg]
      | cons b bs =>
        simp only [List.isEmpty_cons, Bool.false_and, Bool.not_false, Bool.and_false,
          Bool.false_eq_true, if_false]
        exact comparePrerelease_anti collate H (a :: as) (b :: bs)

theorem compareSemver_sgn_zero (collate : String → String → Int)
    (H : IsCollator collate) (A B : Semver)
    (hlen : A.core.length = B.core.length)
    (h : (compareSemver collate A B).sgn = 0) : A = B := by
  obtain ⟨ac, ap⟩ := A
  obtain ⟨bc, bp⟩ := B
  simp only at hlen
  unfold compareSemver at h
  simp only at h
  cases hcc : compareCore ac bc with
  | some d =>
    rw [hcc] at h
    simp only [] at h
    exact absurd h (compareCore_some_sgn_ne_zero ac bc d hcc)
  | none =>
    rw [hcc] at h
    simp only [] at h
    have hcore : ac = bc := compareCore_none_eq ac bc hlen hcc
    subst hcore
    cases ap with
    | nil =>
      cases bp with
      | nil => rfl
      | cons b bs => norm_num [JsNum.sgn] at h
    | cons a as =>
      cases bp with
      | nil => norm_num [JsNum.sgn] at h
      | cons b bs =>
        simp only [List.isEmpty_cons, Bool.false_and, Bool.not_false, Bool.and_false,
          Bool.false_eq_true, if_false] at h
        have := (comparePrerelease_sgn_zero_iff collate H (a :: as) (b :: bs)).mp h
        rw [this]

theorem compareSemver_trans_neg (collate : String → String → Int)
    (H : IsCollator collate) (A B C : Semver)
    (hAB : A.core.length = B.core.length) (hBC : B.core.length = C.core.length)
    (h1 : (compareSemver collate A B).sgn = -1)
    (h2 : (compareSemver collate B C).sgn = -1) :
    (compareSemver collate A C).sgn = -1 := by
  obtain ⟨ac, ap⟩ := A
  obtain ⟨bc, bp⟩ := B
  obtain ⟨cc, cp⟩ := C
  simp only at hAB hBC
  unfold compareSemver at h1 h2 ⊢
  simp only at h1 h2 ⊢
  cases hc1 : compareCore ac bc with
  | some u =>
    rw [hc1] at h1
    simp only [] at h1
    cases hc2 : compareCore bc cc with
    | some v =>
      rw [hc2] at h2
      simp only [] at h2
      obtain ⟨w, hw, hws⟩ := compareCore_trans_neg ac bc cc u v hc1 h1 hc2 h2
      rw [hw]
      exact hws
    | none =>
      have hcore : bc = cc := compareCore_none_eq bc cc hBC hc2
      subst hcore
      rw [hc1]
      exact h1
  | none =>
    have hcore : ac = bc := compareCore_none_eq ac bc hAB hc1
    subst hcore
    rw [hc1] at h1
    simp only [] at h1
    cases hc2 : compareCore ac cc with
    | some v =>
      rw [hc2] at h2
      simp only [] at h2 ⊢
      exact h2
    | none =>
      rw [hc2] at h2
      simp only [] at h2 ⊢
      cases ap with
      | nil =>
        cases bp with
        | nil => norm_num [comparePrerelease, JsNum.sgn] at h1
        | cons b bs => norm_num [JsNum.sgn] at h1
      | cons a as =>
        cases bp with
        | nil =>
          cases cp with
          | nil => norm_num [comparePrerelease, JsNum.sgn] at h2
          | cons c2 cs => norm_num [JsNum.sgn] at h2
        | cons b bs =>
          simp only [List.isEmpty_cons, Bool.false_and, Bool.not_false, Bool.and_false,
            Bool.false_eq_true, if_false] at h1
          cases cp with
          | nil =>
            simp only [List.isEmpty_cons, List.isEmpty_nil, Bool.false_and,
              Bool.not_false, Bool.true_and, Bool.false_eq_true, if_false, if_true]
            norm_num [JsNum.sgn]
          | cons c2 cs =>
            simp only [List.isEmpty_cons, Bool.false_and, Bool.not_false, Bool.and_false,
              Bool.false_eq_true, if_false] at h2 ⊢
            exact comparePrerelease_trans_neg collate H _ _ _ h1 h2

theorem compareVersions_anti (collate : String → String → Int)
    (H : IsCollator collate) (a b : String) :
    compareVersions collate b a = (compareVersions collate a b).neg :=
  compareSemver_anti collate H (parseSemver a) (parseSemver b)

theorem compareVersions_sgn_zero (collate : String → String → Int)
    (H : IsCollator collate) (a b : String)
    (h : (compareVersions collate a b).sgn = 0) :
    parseSemver a = parseSemver b :=
  compareSemver_sgn_zero collate H (parseSemver a) (parseSemver b)
    (by rw [parseSemver_core_length, parseSemver_core_length]) h

theorem compareVersions_trans_nonpos (collate : String → String → Int)
    (H : IsCollator collate) (a b c : String)
    (h1 : (compareVersions collate a b).sgn ≤ 0)
    (h2 : (compareVersions collate b c).sgn ≤ 0) :
    (compareVersions collate a c).sgn ≤ 0 := by
  have hlab : (parseSemver a).core.length = (parseSemver b).core.length := by
    rw [parseSemver_core_length, parseSemver_core_length]
  have hlbc : (parseSemver b).core.length = (parseSemver c).core.length := by
    rw [parseSemver_core_length, parseSemver_core_length]
  rcases JsNum.sgn_vals (compareVersions collate a b) with hab | hab | hab
  · rcases JsNum.sgn_vals (compareVersions collate b c) with hbc | hbc | hbc
    · have := compareSemver_trans_neg collate H _ _ _ hlab hlbc hab hbc
      unfold compareVersions
      omega
    · have he := compareVersions_sgn_zero collate H b c hbc
      unfold compareVersions at hab ⊢
      rw [← he]
      omega
    · omega
  · have he := compareVersions_sgn_zero collate H a b hab
    unfold compareVersions at h2 ⊢
    rw [he]
    exact h2
  · omega

theorem compareVersions_total (collate : String → String → Int)
    (H : IsCollator collate) (a b : String) :
    (compareVersions collate a b).sgn ≤ 0 ∨ (compareVersions collate b a).sgn ≤ 0 := by
  have h := compareVersions_anti collate H a b
  have hs : (compareVersions collate b a).sgn = -(compareVersions collate a b).sgn := by
    rw [h, JsNum.sgn_neg]
  omega

theorem compareVersions_self_sgn (collate : String → String → Int)
    (a : String) : (compareVersions collate a a).sgn = 0 := by
  unfold compareVersions compareSemver
  rw [compareCore_self]
  simp only []
  cases hp : (parseSemver a).prerelease with
  | nil => norm_num [comparePrerelease, JsNum.sgn]
  | cons x xs =>
    simp only [List.isEmpty_cons, Bool.false_and, Bool.not_false, Bool.and_false,
      Bool.false_eq_true, if_false]
    rw [comparePrerelease_self]
    norm_num [JsNum.sgn]

/-- Claim C4, amended: `compareVersions` orders versions by the three
numeric core components first (the first differing component decides by
subtraction); a release with no prerelease tag outranks one with a tag;
prerelease identifiers compare left-to-right, where "numeric" means accepted
by JS `Number` — so scientific (`1e1`), signed (`+7`) and hex (`0x1A`) forms
are numeric too — with two numeric identifiers compared by value and a
numeric identifier ranked below a non-numeric one; the chain
`1.2.3 > 1.2.3-rc.2 > 1.2.3-rc.1 > 1.2.0` holds for every collator.  The
spec's stricter reading — numeric below every semver-alphanumeric
identifier — fails: `1.2.3-20` ranks above `1.2.3-1e1` because JS parses
`1e1` as the number 10. -/
theorem compareVersions_jsnumber_order :
    (∀ (collate : String → String → Int) (A B : Semver) (d : JsNum),
        compareCore A.core B.core = some d →
        compareSemver collate A B = d)
  ∧ (∀ (collate : String → String → Int) (A B : Semver),
        compareCore A.core B.core = none →
        A.prerelease = [] → B.prerelease ≠ [] →
        compareSemver collate A B = JsNum.finite 1)
  ∧ (∀ (collate : String → String → Int) (A B : Semver),
        compareCore A.core B.core = none →
        A.prerelease ≠ [] → B.prerelease = [] →
        compareSemver collate A B = JsNum.finite (-1))
  ∧ (∀ (collate : String → String → Int) (a b : String) (as bs : List String)
        (x y : JsNum),
        jsStringToNumber a = some x → jsStringToNumber b = some y → x ≠ y →
        comparePrerelease collate (a :: as) (b :: bs) = x.sub y)
  ∧ (∀ (collate : String → String → Int) (a b : String) (as bs : List String)
        (x : JsNum),
        jsStringToNumber a = some x → jsStringToNumber b = none →
        comparePrerelease collate (a :: as) (b :: bs) = JsNum.finite (-1))
  ∧ (∀ (collate : String → String → Int) (a b : String) (as bs : List String)
        (y : JsNum),
        jsStringToNumber a = none → jsStringToNumber b = some y →
        comparePrerelease collate (a :: as) (b :: bs) = JsNum.finite 1)
  ∧ (jsStringToNumber "1e1" = some (JsNum.finite 10) ∧
      jsStringToNumber "+7" = some (JsNum.finite 7) ∧
      jsStringToNumber "0x1A" = some (JsNum.finite 26) ∧
      jsStringToNumber "20" = some (JsNum.finite 20) ∧
      jsStringToNumber "rc" = none ∧
      jsStringToNumber "alpha" = none)
  ∧ (∀ collate : String → String → Int,
        compareVersions collate "1.2.3" "1.2.3-rc.2" = JsNum.finite 1 ∧
        compareVersions collate "1.2.3-rc.2" "1.2.3-rc.1" = JsNum.finite 1 ∧
        compareVersions collate "1.2.3-rc.1" "1.2.0" = JsNum.finite 3)
  ∧ (∀ collate : String → String → Int,
        compareVersions collate "1.2.3-20" "1.2.3-1e1" = JsNum.finite 10) := by
  refine ⟨?_, ?_, ?_, ?_, ?_, ?_, ?_, ?_, ?_⟩
  · intro collate A B d h
    unfold compareSemver
    rw [h]
  · intro collate A B hcc hA hB
    unfold compareSemver
    rw [hcc]
    simp only []
    rw [hA]
    cases hBp : B.prerelease with
    | nil => exact absurd hBp hB
    | cons x xs => simp
  · intro collate A B hcc hA hB
    unfold compareSemver
    rw [hcc]
    simp only []
    rw [hB]
    cases hAp : A.prerelease with
    | nil => exact absurd hAp hA
    | cons x xs => simp
  · intro collate a b as bs x y ha hb hxy
    have hc : cmpId collate a b = some (x.sub y) := by
      unfold cmpId
      rw [ha, hb]
      simp only []
      rw [if_pos hxy]
    simp only [comparePrerelease, hc]
  · intro collate a b as bs x ha hb
    have hc : cmpId collate a b = some (JsNum.finite (-1)) := by
      unfold cmpId
      rw [ha, hb]
    simp only [comparePrerelease, hc]
  · intro collate a b as bs y ha hb
    have hc : cmpId collate a b = some (JsNum.finite 1) := by
      unfold cmpId
      rw [ha, hb]
    simp only [comparePrerelease, hc]
  · exact ⟨by decide, by decide, by decide, by decide, by decide, by decide⟩
  · intro collate
    exact ⟨rfl, rfl, rfl⟩
  · intro collate
    rfl

/-- C4 counterexample to "numeric identifiers … always ranked below
alphanumeric identifiers": `1e1` is alphanumeric to semver but numeric to JS
`Number`, so `compareVersions` ranks `1.2.3-20` strictly above
`1.2.3-1e1` (20 − 10 = 10 > 0) where the spec's ordering demands the
opposite sign. -/
theorem c4_counterexample :
    compareVersions (fun _ _ => 0) "1.2.3-20" "1.2.3-1e1" = JsNum.finite 10 ∧
      (JsNum.finite 10).sgn = 1 :=
  ⟨rfl, rfl⟩

/-- Witness for `compareVersions_jsnumber_order`: the both-numeric clause at
`20` vs `1e1`. -/
theorem compareVersions_jsnumber_order_witness :
    comparePrerelease (fun _ _ => 0) ["20"] ["1e1"] =
      (JsNum.finite 20).sub (JsNum.finite 10) :=
  compareVersions_jsnumber_order.2.2.2.1 (fun _ _ => 0) "20" "1e1" [] []
    (JsNum.finite 20) (JsNum.finite 10) rfl rfl (by decide)

/-- The order relation realized by `[...releases].sort((a, b) =>
compareVersions(b.version, a.version))` (line 273): `a` may be placed
before `b` exactly when the callback is not positive on `(a, b)`. -/
def releaseLe (collate : String → String → Int) (a b : IndexRelease) : Bool :=
  decide ((compareVersions collate b.version a.version).sgn ≤ 0)

/-- `selectRelease` (resolver.ts, lines 260–283), parametrized by the host
collator reached through `compareVersions`.  `options.version` is tested by
JS truthiness; the descending sort is a stable sort under `releaseLe`. -/
def selectRelease (collate : String → String → Int) (packageEntry : PackageEntry)
    (options : SelectOptions) : Except String IndexRelease :=
  if packageEntry.releases.isEmpty then
    Except.error ("Package \"" ++ packageEntry.name ++ "\" has no releases in the index")
  else if optStrTruthy options.version then
    match packageEntry.releases.find? (fun release =>
        normalizeVersion release.version = normalizeVersion (options.version.getD "")) with
    | some matched => Except.ok matched
    | none =>
      Except.error ("Version \"" ++ options.version.getD "" ++ "\" not found for package \""
        ++ packageEntry.name ++ "\"")
  else
    let sorted := packageEntry.releases.mergeSort (releaseLe collate)
    if options.includePrerelease then
      Except.ok (sorted.headD default)
    else
      match sorted.find? (fun release => !isPrerelease release) with
      | some stable => Except.ok stable
      | none =>
        Except.error ("No stable release found for package \"" ++ packageEntry.name
          ++ "\". Use --include-prerelease.")

theorem releaseLe_trans (collate : String → String → Int) (H : IsCollator collate)
    (a b c : IndexRelease) (h1 : releaseLe collate a b = true)
    (h2 : releaseLe collate b c = true) : releaseLe collate a c = true := by
  unfold releaseLe at h1 h2 ⊢
  rw [decide_eq_true_eq] at h1 h2 ⊢
  exact compareVersions_trans_nonpos collate H c.version b.version a.version h2 h1

theorem releaseLe_total (collate : String → String → Int) (H : IsCollator collate)
    (a b : IndexRelease) : (releaseLe collate a b || releaseLe collate b a) = true := by
  unfold releaseLe
  rcases compareVersions_total collate H b.version a.version with h | h <;>
    simp [h]

unseal List.merge List.mergeSort in
/-- Claim C5: with no requested version and `includePrerelease` false,
`selectRelease` returns a stable release from the entry that no other
stable release outranks under `compareVersions` (for any host collator
satisfying `IsCollator`); when every release is a prerelease it fails with
the advisory error; and on releases `2.0.0-beta`, `1.9.9` it returns
`1.9.9` for every collator. -/
theorem selectRelease_stable_highest :
    (∀ collate : String → String → Int, IsCollator collate →
      ∀ (entry : PackageEntry) (r : IndexRelease),
        selectRelease collate entry {} = Except.ok r →
        isPrerelease r = false ∧ r ∈ entry.releases ∧
          ∀ x ∈ entry.releases, isPrerelease x = false →
            0 ≤ (compareVersions collate r.version x.version).sgn)
  ∧ (∀ (collate : String → String → Int) (entry : PackageEntry),
        entry.releases ≠ [] →
        (∀ x ∈ entry.releases, isPrerelease x = true) →
        selectRelease collate entry {} = Except.error
          ("No stable release found for package \"" ++ entry.name
            ++ "\". Use --include-prerelease."))
  ∧ (∀ collate : String → String → Int,
        selectRelease collate
            ⟨"pkg", [{version := "2.0.0-beta"}, {version := "1.9.9"}]⟩ {} =
          Except.ok {version := "1.9.9"}) := by
  refine ⟨?_, ?_, ?_⟩
  · intro collate H entry r hok
    unfold selectRelease at hok
    by_cases hemp : entry.releases.isEmpty
    · rw [if_pos hemp] at hok
      exact absurd hok (by simp)
    · rw [if_neg hemp] at hok
      rw [if_neg (by simp [optStrTruthy])] at hok
      rw [if_neg (by simp)] at hok
      cases hfind : (entry.releases.mergeSort (releaseLe collate)).find?
          (fun release => !isPrerelease release) with
      | none => rw [hfind] at hok; exact absurd hok (by simp)
      | some stable =>
        rw [hfind] at hok
        simp only [Except.ok.injEq] at hok
        subst hok
        have hsorted : (entry.releases.mergeSort (releaseLe collate)).Pairwise
            (fun a b => releaseLe collate a b = true) :=
          List.sorted_mergeSort (releaseLe_trans collate H) (releaseLe_total collate H)
            entry.releases
        have hstable : isPrerelease stable = false := by
          have hp := List.find?_some hfind
          simpa using hp
        have hmem : stable ∈ entry.releases :=
          List.mem_mergeSort.mp (List.mem_of_find?_eq_some hfind)
        refine ⟨hstable, hmem, ?_⟩
        intro x hx hxs
        have hxmem : x ∈ entry.releases.mergeSort (releaseLe collate) :=
          List.mem_mergeSort.mpr hx
        have := find?_pairwise_le (releaseLe collate)
          (fun release => !isPrerelease release)
          (entry.releases.mergeSort (releaseLe collate)) stable hsorted hfind x hxmem
          (by simp [hxs])
        rcases this with h | h
        · subst h
          rw [compareVersions_self_sgn]
        · unfold releaseLe at h
          rw [decide_eq_true_eq] at h
          have ha := compareVersions_anti collate H stable.version x.version
          have : (compareVersions collate x.version stable.version).sgn =
              -(compareVersions collate stable.version x.version).sgn := by
            rw [ha, JsNum.sgn_neg]
          omega
  · intro collate entry hne hall
    unfold selectRelease
    rw [if_neg (by simpa using hne)]
    rw [if_neg (by simp [optStrTruthy])]
    rw [if_neg (by simp)]
    have hfind : (entry.releases.mergeSort (releaseLe collate)).find?
        (fun release => !isPrerelease release) = none := by
      rw [List.find?_eq_none]
      intro x hx
      have := hall x (List.mem_mergeSort.mp hx)
      simp [this]
    rw [hfind]
  · intro collate
    rfl

/-- Witness for `selectRelease_stable_highest`: the advisory-error clause at
a concrete all-prerelease package, with the code-point collator. -/
theorem selectRelease_stable_highest_witness :
    selectRelease localeCompareInt ⟨"pkg", [{version := "1.0.0-alpha"}]⟩ {} =
      Except.error ("No stable release found for package \"pkg\""
        ++ ". Use --include-prerelease.") :=
  selectRelease_stable_highest.2.1 localeCompareInt
    ⟨"pkg", [{version := "1.0.0-alpha"}]⟩ (by simp)
    (by
      intro x hx
      simp only [List.mem_singleton] at hx
      subst hx
      decide)
